import Mathlib

/-!
Shallow embedding of the subtitle-CLI core (request normalization, ranking
engine, upstream HTTP client, SubHD catalog parser and provider) together
with proofs about the embedded operations.

Modelling conventions, used throughout:

* JavaScript strings are modelled as Lean `String` / `List Char`
  (sequences of Unicode scalar values; the code never manufactures lone
  UTF-16 surrogates on the inputs of interest).
* JavaScript numbers are modelled as `ℚ`.  The three opaque float-library
  operations the ranking code uses (`Math.log10`, `Number.toFixed(6)`,
  `Number.toFixed(3)`) are abstracted into a `FloatModel` record; theorems
  quantify over every such model, so they hold for the actual IEEE-754
  implementations in particular.
* The WHATWG URL library functions used by the SubHD provider
  (`new URL`, `pathname`, `decodeURIComponent`, `encodeURIComponent`) are
  abstracted into a `UrlLib` record in the same way.
* Case-insensitive regular-expression matching is modelled via ASCII
  lowercasing (`Char.toLower`); every needle the code matches
  case-insensitively is ASCII or CJK (caseless), so this is faithful.
* Each regular expression of the source is hand-translated into a
  deterministic matcher.  Every pattern in the source has the shape
  "literal, then a greedy character-class run, then a literal" (or a lazy
  gap followed by a literal); for such patterns backtracking never changes
  the match, so the deterministic translation computes the same result as
  the backtracking engine.  The correspondence is noted at each matcher.
-/

namespace Subchef

/-! ## JavaScript string primitives -/

/-- Characters matched by the JavaScript regular-expression class `\s`
(also the set trimmed by `String.prototype.trim`). -/
def isJsWs (c : Char) : Bool :=
  c == ' ' || c == '\t' || c == '\n' || c == '\r' ||
  c.val == 11 || c.val == 12 || c.val == 0xa0 || c.val == 0x1680 ||
  (0x2000 ≤ c.val && c.val ≤ 0x200a) ||
  c.val == 0x2028 || c.val == 0x2029 || c.val == 0x202f ||
  c.val == 0x205f || c.val == 0x3000 || c.val == 0xfeff

/-- Model of `value.trim()` on the underlying character list. -/
def jsTrimL (l : List Char) : List Char :=
  ((l.dropWhile isJsWs).reverse.dropWhile isJsWs).reverse

/-- Model of `value.trim()`. -/
def jsTrim (s : String) : String := ⟨jsTrimL s.data⟩

/-- Collapses runs of adjacent spaces to a single space; helper for
`collapseWsL`. -/
def squeezeSpaces : List Char → List Char
  | [] => []
  | [c] => [c]
  | a :: b :: t =>
    if a == ' ' && b == ' ' then squeezeSpaces (b :: t)
    else a :: squeezeSpaces (b :: t)

/-- Model of `value.replace(/\s+/g, " ").trim()` (the `collapseWhitespace`
helper that appears verbatim in three source modules): every whitespace
character is mapped to a space, runs of spaces are collapsed, and the ends
are trimmed. -/
def collapseWsL (l : List Char) : List Char :=
  jsTrimL (squeezeSpaces (l.map fun c => if isJsWs c then ' ' else c))

/-- Model of the source `collapseWhitespace` helper. -/
def collapseWhitespace (s : String) : String := ⟨collapseWsL s.data⟩

/-- ASCII lowercasing of a character list; model of `toLowerCase` and of
the `i` regular-expression flag (all needles involved are ASCII or
caseless CJK). -/
def lcL (l : List Char) : List Char := l.map Char.toLower

/-- If `needle` is a prefix of `s`, returns the remainder of `s`. -/
def stripLit : List Char → List Char → Option (List Char)
  | [], s => some s
  | _ :: _, [] => none
  | n :: ns, c :: cs => if c == n then stripLit ns cs else none

/-- Case-insensitive variant of `stripLit`. -/
def stripLitCI : List Char → List Char → Option (List Char)
  | [], s => some s
  | _ :: _, [] => none
  | n :: ns, c :: cs => if c.toLower == n.toLower then stripLitCI ns cs else none

/-- Runs a position matcher at every suffix, left to right, returning the
first success; model of the scan a regular-expression engine performs for
`exec`/`test`. -/
def scanFor (p : List Char → Option α) : List Char → Option α
  | [] => p []
  | c :: cs =>
    match p (c :: cs) with
    | some r => some r
    | none => scanFor p cs

/-- Boolean variant of `scanFor`. -/
def anySuffix (p : List Char → Bool) : List Char → Bool
  | [] => p []
  | c :: cs => p (c :: cs) || anySuffix p cs

/-- Model of `hay.includes(needle)`. -/
def containsSubL (needle hay : List Char) : Bool :=
  anySuffix (fun s => (stripLit needle s).isSome) hay

/-- Comparison of characters by code point. -/
def cmpChar (a b : Char) : Ordering :=
  if a.toNat < b.toNat then .lt else if b.toNat < a.toNat then .gt else .eq

/-- Lexicographic comparison of character lists by code point; model of
`String.prototype.localeCompare` (the ids and language codes the code
compares are plain ASCII, where locale collation and code-point order
agree). -/
def cmpCharL : List Char → List Char → Ordering
  | [], [] => .eq
  | [], _ :: _ => .lt
  | _ :: _, [] => .gt
  | a :: as, b :: bs =>
    match cmpChar a b with
    | .eq => cmpCharL as bs
    | o => o

/-- The numeric result of `a.localeCompare(b)`, as a JavaScript number. -/
def localeCompareQ (a b : String) : ℚ :=
  match cmpCharL a.data b.data with
  | .lt => -1
  | .eq => 0
  | .gt => 1

/-- ASCII alphanumeric characters, the class `[A-Za-z0-9]`. -/
def isAsciiAlnum (c : Char) : Bool :=
  ('A' ≤ c && c ≤ 'Z') || ('a' ≤ c && c ≤ 'z') || ('0' ≤ c && c ≤ '9')

/-- The regular-expression class `\w`. -/
def isWordChar (c : Char) : Bool := isAsciiAlnum c || c == '_'

/-- Model of the Unicode property class `[\p{L}\p{N}]`: ASCII
alphanumerics, plus every non-ASCII scalar that is not whitespace.  (The
non-ASCII text the tokenizer sees is CJK letters; non-ASCII punctuation is
over-approximated as a letter, which no theorem below depends on.) -/
def isUniAlnum (c : Char) : Bool :=
  isAsciiAlnum c || (0x80 ≤ c.val && !(isJsWs c))

/-- Model of `Map.prototype.set`: overwrites the value in place when the
key is present (keeping its insertion position), appends otherwise. -/
def jsMapSet : List (String × α) → String → α → List (String × α)
  | [], n, v => [(n, v)]
  | (m, w) :: t, n, v =>
    if m == n then (m, v) :: t else (m, w) :: jsMapSet t n v

/-- Model of `Map.prototype.delete` (keys are kept without duplicates by
`jsMapSet`, so filtering removes exactly the entry for the key). -/
def jsMapDelete (m : List (String × α)) (n : String) : List (String × α) :=
  m.filter fun p => !(p.1 == n)

/-- Model of `Array.prototype.join(sep)`. -/
def joinSep (sep : String) : List String → String
  | [] => ""
  | [s] => s
  | s :: t :: r => s ++ sep ++ joinSep sep (t :: r)

/-- First-occurrence deduplication, the order produced by iterating a
JavaScript `Set` built by insertion. -/
def dedupFirstAux (seen : List String) : List String → List String
  | [] => []
  | a :: l =>
    if a ∈ seen then dedupFirstAux seen l
    else a :: dedupFirstAux (a :: seen) l

/-- First-occurrence deduplication of a string list. -/
def dedupKeepFirst (l : List String) : List String := dedupFirstAux [] l

/-- The comparator contract of `Array.prototype.sort`: `a` may stay before
`b` exactly when the comparator does not return a positive number. -/
def jsSortRel (cmp : α → α → ℚ) (a b : α) : Prop := cmp a b ≤ 0

instance (cmp : α → α → ℚ) : DecidableRel (jsSortRel cmp) :=
  fun _ _ => inferInstanceAs (Decidable (_ ≤ _))

/-- Model of `Array.prototype.sort(cmp)` for a consistent comparator:
`sort` is required to be stable, and for a consistent comparator the
stable sorted permutation is unique, so any stable sorting algorithm is an
extensionally faithful model; we use insertion sort. -/
def jsSort (cmp : α → α → ℚ) (l : List α) : List α :=
  List.insertionSort (jsSortRel cmp) l

/-! ## Request normalizer (`src/domain/request-normalization.ts`) -/

/-- The `LANGUAGE_ALIAS_MAP` table of the source. -/
def LANGUAGE_ALIAS_MAP : List (String × String) :=
  [("zh", "zh"), ("zho", "zh"), ("chinese", "zh"),
   ("chs", "zh-cn"), ("cht", "zh-tw"),
   ("zh-cn", "zh-cn"), ("zh-hans", "zh-cn"),
   ("zh-tw", "zh-tw"), ("zh-hant", "zh-tw"),
   ("en", "en"), ("eng", "en"), ("english", "en"),
   ("ja", "ja"), ("jpn", "ja"), ("japanese", "ja")]

/-- Model of `normalizeLanguage`: trim, lowercase, then alias lookup with
pass-through for unknown codes. -/
def normalizeLanguage (value : String) : String :=
  let normalized : String := ⟨lcL (jsTrimL value.data)⟩
  if normalized.data.length = 0 then normalized
  else (List.lookup normalized LANGUAGE_ALIAS_MAP).getD normalized

/-- Model of a JavaScript `Set.prototype.add` on an insertion-ordered
string set. -/
def jsSetAdd (s : List String) (x : String) : List String :=
  if x ∈ s then s else s ++ [x]

/-- Model of `normalizeLanguages`: normalize each entry, drop empties, and
deduplicate keeping first-seen order. -/
def normalizeLanguages (values : List String) : List String :=
  values.foldl
    (fun deduped value =>
      let normalized := normalizeLanguage value
      if 0 < normalized.data.length then jsSetAdd deduped normalized
      else deduped)
    []

/-- Maximal runs of `[\p{L}\p{N}]` characters.  This is the result of
`text.split(/[^\p{L}\p{N}]+/u)` followed by the source's
`.map(trim).filter(nonempty)`: splitting on runs of non-alphanumerics and
dropping the possibly-empty boundary pieces leaves exactly the maximal
alphanumeric runs, which contain no whitespace, so the trim is the
identity on them. -/
def wordRunsGo (cur : List Char) : List Char → List (List Char)
  | [] => if cur == [] then [] else [cur.reverse]
  | c :: cs =>
    if isUniAlnum c then wordRunsGo (c :: cur) cs
    else if cur == [] then wordRunsGo [] cs
    else cur.reverse :: wordRunsGo [] cs

/-- Maximal alphanumeric runs of a character list. -/
def wordRuns (l : List Char) : List (List Char) := wordRunsGo [] l

/-- Model of `tokenize`: on non-blank text, lowercase, split into word
runs, deduplicate keeping first occurrence, and sort with the
`localeCompare` comparator. -/
def tokenize (text : String) : List String :=
  if jsTrimL text.data = [] then []
  else
    let items := (wordRuns (lcL text.data)).map fun r => (⟨r⟩ : String)
    jsSort localeCompareQ (dedupKeepFirst items)

/-- The `NormalizedSubtitleRequest` record of the source. -/
structure NormalizedSubtitleRequest where
  query : String
  normalizedQuery : String
  queryTokens : List String
  year : Option Int
  season : Option Int
  episode : Option Int
  languagePreferences : List String
  fingerprint : String
deriving DecidableEq

/-- The `SubtitleRequestInput` record of the source. -/
structure SubtitleRequestInput where
  query : String
  year : Option Int := none
  season : Option Int := none
  episode : Option Int := none
  languages : Option (List String) := none
deriving DecidableEq

/-- Model of `String(x ?? "")` for an optional integer. -/
def optIntStr : Option Int → String
  | none => ""
  | some n => toString n

/-- Model of `normalizeSubtitleRequest`. -/
def normalizeSubtitleRequest (input : SubtitleRequestInput) :
    NormalizedSubtitleRequest :=
  let query := collapseWhitespace input.query
  let normalizedQuery : String := ⟨lcL query.data⟩
  let queryTokens := tokenize normalizedQuery
  let languagePreferences := normalizeLanguages (input.languages.getD [])
  let canonicalLanguages := jsSort localeCompareQ languagePreferences
  let fingerprint :=
    joinSep "|"
      [normalizedQuery, optIntStr input.year, optIntStr input.season,
       optIntStr input.episode, joinSep "," canonicalLanguages]
  { query, normalizedQuery, queryTokens,
    year := input.year, season := input.season, episode := input.episode,
    languagePreferences, fingerprint }

/-! ## Ranking engine (`src/domain/ranking.ts`) -/

/-- The `SubtitleFormat` union of the source. -/
inductive SubtitleFormat
  | srt
  | ass
  | vtt
deriving DecidableEq

/-- The string value of a `SubtitleFormat` (the TypeScript union members
are the strings themselves). -/
def SubtitleFormat.str : SubtitleFormat → String
  | .srt => "srt"
  | .ass => "ass"
  | .vtt => "vtt"

/-- The `ProviderSubtitleResult` record of the source. -/
structure ProviderSubtitleResult where
  id : String
  providerId : String
  title : String
  language : String
  format : SubtitleFormat
  downloads : ℚ
  hearingImpaired : Option Bool := none
  releaseName : Option String := none
deriving DecidableEq

/-- The platform float-library operations used by the scorer, abstracted:
`log10` models `Math.log10`, `round6` models `Number(x.toFixed(6))` (the
source's `roundScore` helper), and `fixed3` models `x.toFixed(3)` as used
inside reason strings.  Theorems quantify over every model. -/
structure FloatModel where
  log10 : ℚ → ℚ
  round6 : ℚ → ℚ
  fixed3 : ℚ → String

/-- The scored record, `Omit<RankedSubtitleResult, "rank">`: the spread of
the candidate's fields plus `score` and `reasons`. -/
structure ScoredSubtitleResult where
  cand : ProviderSubtitleResult
  score : ℚ
  reasons : List String
deriving DecidableEq

/-- The `RankedSubtitleResult` record of the source. -/
structure RankedSubtitleResult where
  cand : ProviderSubtitleResult
  score : ℚ
  reasons : List String
  rank : ℕ
deriving DecidableEq

/-- The `PROVIDER_PRIORITY_BOOST` table of the source. -/
def PROVIDER_PRIORITY_BOOST : List (String × ℚ) := [("subhd", 12), ("assrt", 4)]

/-- Model of `scoreSubtitleCandidate`: accumulates the score and reason
list exactly in source order (query overlap, language preference, provider
boost, popularity, format, hearing-impaired penalty) and rounds the final
score. -/
def scoreSubtitleCandidate (F : FloatModel)
    (request : NormalizedSubtitleRequest) (candidate : ProviderSubtitleResult) :
    ScoredSubtitleResult :=
  let titleTokens := tokenize candidate.title
  let overlapCount : ℕ :=
    request.queryTokens.foldl
      (fun count token => count + (if token ∈ titleTokens then 1 else 0)) 0
  let score : ℚ := 0
  let reasons : List String := []
  let (score, reasons) :=
    if 0 < request.queryTokens.length then
      let overlapRatio : ℚ := (overlapCount : ℚ) / (request.queryTokens.length : ℚ)
      (score + overlapRatio * 60,
       reasons ++ ["query-overlap:" ++ F.fixed3 overlapRatio])
    else (score, reasons)
  let (score, reasons) :=
    match request.languagePreferences.findIdx? (fun item => item == candidate.language) with
    | some 0 => (score + 30, reasons ++ ["lang:primary"])
    | some (_ + 1) => (score + 20, reasons ++ ["lang:secondary"])
    | none =>
      if 0 < request.languagePreferences.length then
        (score - 10, reasons ++ ["lang:mismatch"])
      else (score, reasons)
  let providerBoost := (List.lookup candidate.providerId PROVIDER_PRIORITY_BOOST).getD 0
  let (score, reasons) :=
    if providerBoost ≠ 0 then
      (score + providerBoost,
       reasons ++ ["provider:" ++ candidate.providerId ++ ":+" ++ F.fixed3 providerBoost])
    else (score, reasons)
  let downloadBoost := min 15 (F.log10 (candidate.downloads + 1) * 5)
  let score := score + downloadBoost
  let reasons := reasons ++ ["downloads:+" ++ F.fixed3 downloadBoost]
  let (score, reasons) :=
    match candidate.format with
    | .srt => (score + 8, reasons ++ ["format:srt"])
    | .ass => (score + 5, reasons ++ ["format:ass"])
    | .vtt => (score + 4, reasons ++ ["format:vtt"])
  let (score, reasons) :=
    if candidate.hearingImpaired = some true then (score - 2, reasons ++ ["hi:-2"])
    else (score, reasons)
  { cand := candidate, score := F.round6 score, reasons }

/-- The sort comparator of `rankSubtitleCandidates`, as a JavaScript
number: score descending, then downloads descending, then provider id and
candidate id by `localeCompare`. -/
def cmpScored (left right : ScoredSubtitleResult) : ℚ :=
  if right.score ≠ left.score then right.score - left.score
  else if right.cand.downloads ≠ left.cand.downloads then
    right.cand.downloads - left.cand.downloads
  else
    let providerOrder := localeCompareQ left.cand.providerId right.cand.providerId
    if providerOrder ≠ 0 then providerOrder
    else localeCompareQ left.cand.id right.cand.id

/-- The `.map((item, index) => ({...item, rank: index + 1}))` step: each
surviving scored record is copied and extended with its 1-based rank. -/
def assignRanks : ℕ → List ScoredSubtitleResult → List RankedSubtitleResult
  | _, [] => []
  | n, x :: xs => ⟨x.cand, x.score, x.reasons, n⟩ :: assignRanks (n + 1) xs

/-- Model of `rankSubtitleCandidates`: score every candidate, sort the
scored copies with `cmpScored`, truncate to `limit`, and assign 1-based
ranks.  (Callers pass `limit` explicitly; the source default is
`candidates.length`.) -/
def rankSubtitleCandidates (F : FloatModel) (request : NormalizedSubtitleRequest)
    (candidates : List ProviderSubtitleResult) (limit : ℕ) :
    List RankedSubtitleResult :=
  let scored := candidates.map (scoreSubtitleCandidate F request)
  let sorted := jsSort cmpScored scored
  assignRanks 1 (sorted.take limit)

/-- Model of `rankSubtitleCandidates` together with the post-call contents
of the caller's `candidates` array: the in-place `.sort` of the source is
applied to the fresh array produced by `.map`, never to `candidates`, so
the array the caller passed still holds the original records in the
original order. -/
def rankSubtitleCandidatesEffect (F : FloatModel) (request : NormalizedSubtitleRequest)
    (candidates : List ProviderSubtitleResult) (limit : ℕ) :
    List RankedSubtitleResult × List ProviderSubtitleResult :=
  (rankSubtitleCandidates F request candidates limit, candidates)

/-! ## Upstream client (`src/domain/providers/upstream-client.ts`) -/

/-- The classification sub-tag of an upstream bad response. -/
inductive Classification
  | rateLimit
  | antiBot
  | badResponse
deriving DecidableEq

/-- The error codes of `core/errors.ts` used by the embedded modules. -/
inductive CliErrorCode
  | E_UPSTREAM_BAD_RESPONSE
  | E_UPSTREAM_TIMEOUT
  | E_UPSTREAM_NETWORK
  | E_NOT_FOUND_RESOURCE
  | E_UNKNOWN
deriving DecidableEq

/-- The `SubhdDownloadApiPayload` record (all fields optional in the
source). -/
structure SubhdDownloadApiPayload where
  success : Option Bool := none
  pass : Option Bool := none
  msg : Option String := none
  url : Option String := none
deriving DecidableEq

/-- The structured `details` object attached to a `CliAppError`; fields
that a given error does not set are `none`. -/
structure ErrDetails where
  provider : Option String := none
  url : Option String := none
  status : Option Int := none
  classification : Option Classification := none
  snippet : Option String := none
  reason : Option String := none
  timeoutMs : Option Nat := none
  id : Option String := none
  sid : Option String := none
  message : Option String := none
  payload : Option SubhdDownloadApiPayload := none
deriving DecidableEq

/-- The `CliAppError` class of the source (the `cause` chain is not
modelled; no claim mentions it). -/
structure CliAppError where
  code : CliErrorCode
  message : String
  details : ErrDetails := {}
deriving DecidableEq

/-- Position matcher for `/too\s+many\s+requests|rate\s*limit/iu` on an
already-lowercased haystack.  `\s+` and `\s*` are greedy, but each is
followed by a non-whitespace literal, so consuming the maximal whitespace
run is the unique way to continue the match. -/
def rateLimitSnippetAt (s : List Char) : Bool :=
  (((stripLit "too".data s).bind fun s1 =>
      match s1 with
      | [] => none
      | c :: cs =>
        if isJsWs c then
          (stripLit "many".data (cs.dropWhile isJsWs)).bind fun s2 =>
            match s2 with
            | [] => none
            | d :: ds =>
              if isJsWs d then stripLit "requests".data (ds.dropWhile isJsWs)
              else none
        else none).isSome)
  || (((stripLit "rate".data s).bind fun s1 =>
        stripLit "limit".data (s1.dropWhile isJsWs)).isSome)

/-- Model of `/too\s+many\s+requests|rate\s*limit/iu.test(snippet)`. -/
def rateLimitSnippetTest (snippet : String) : Bool :=
  anySuffix rateLimitSnippetAt (lcL snippet.data)

/-- The anti-bot signature needles of `looksLikeAntiBotChallenge`. -/
def ANTI_BOT_NEEDLES : List String :=
  ["challenge-platform", "cloudflare", "cf-challenge", "captcha",
   "验证码", "验证获取下载地址", "jsd/main.js", "attention required"]

/-- Model of `looksLikeAntiBotChallenge`: lowercase the text and look for
any of the fixed signature substrings. -/
def looksLikeAntiBotChallenge (text : String) : Bool :=
  let snippet := lcL text.data
  ANTI_BOT_NEEDLES.any fun needle => containsSubL needle.data snippet

/-- Model of `classifyResponse`, first match wins. -/
def classifyResponse (status : Int) (snippet : String) : Classification :=
  if status == 429 || rateLimitSnippetTest snippet then .rateLimit
  else if status == 403 || status == 401 || looksLikeAntiBotChallenge snippet then .antiBot
  else .badResponse

/-- A target URL, reduced to the two attributes the client consults: its
origin and its serialized form (`url.toString()`). -/
structure Url where
  origin : String
  href : String
deriving DecidableEq

/-- The client configuration after constructor normalization:
`baseOrigin` is `new URL(baseUrl).origin`; `retries`, `timeoutMs` are the
normalized non-negative integers. -/
structure UpstreamClientConfig where
  providerId : String
  baseOrigin : String
  retries : Nat
  timeoutMs : Nat
  userAgent : String
deriving DecidableEq

/-- The cookie jar: an insertion-ordered name-to-value map, as a
JavaScript `Map`. -/
abbrev CookieJar := List (String × String)

/-- Model of `serializeCookies`: `name=value` entries joined by `"; "`. -/
def serializeCookies (jar : CookieJar) : String :=
  joinSep "; " (jar.map fun p => p.1 ++ "=" ++ p.2)

/-- Model of `indexOf("=")` on a character list. -/
def eqSignIdx : List Char → Option Nat
  | [] => none
  | c :: cs => if c == '=' then some 0 else (eqSignIdx cs).map (· + 1)

/-- Model of `mergeCookie`: take the segment before the first `;`, trim
it, split at the first `=` (rejecting a missing or leading `=`), trim name
and value, and delete on empty or literal `"deleted"` values, otherwise
set. -/
def mergeCookie (cookieJar : CookieJar) (raw : String) : CookieJar :=
  let firstSegment := jsTrimL (raw.data.takeWhile fun c => !(c == ';'))
  if firstSegment.length = 0 then cookieJar
  else
    match eqSignIdx firstSegment with
    | none => cookieJar
    | some 0 => cookieJar
    | some (k + 1) =>
      let name : String := ⟨jsTrimL (firstSegment.take (k + 1))⟩
      let value : String := ⟨jsTrimL (firstSegment.drop (k + 2))⟩
      if name.data.length = 0 then cookieJar
      else if value.data.length = 0 || value == "deleted" then
        jsMapDelete cookieJar name
      else jsMapSet cookieJar name value

/-- Model of `mergeResponseCookies`: responses to a request whose target
origin differs from the base origin never touch the jar.  The transport's
already-split `Set-Cookie` list stands in for `readSetCookieHeaders`. -/
def mergeResponseCookies (cfg : UpstreamClientConfig) (url : Url)
    (jar : CookieJar) (setCookies : List String) : CookieJar :=
  if url.origin ≠ cfg.baseOrigin then jar
  else setCookies.foldl mergeCookie jar

/-- Request headers: an insertion-ordered map with lowercased names (the
`Headers` class lowercases names; the embedded callers use lowercase names
throughout). -/
abbrev HeaderMap := List (String × String)

/-- First-match header lookup. -/
def headerGet (h : HeaderMap) (name : String) : Option String :=
  List.lookup name h

/-- Model of the header assembly in `fetchWithTimeout`: copy the caller's
headers, default the user-agent, and attach the serialized jar as `cookie`
only when the jar is non-empty and the target origin equals the base
origin. -/
def buildHeaders (cfg : UpstreamClientConfig) (jar : CookieJar) (url : Url)
    (callerHeaders : HeaderMap) : HeaderMap :=
  let headers := callerHeaders
  let headers :=
    if (headerGet headers "user-agent").isNone then
      jsMapSet headers "user-agent" cfg.userAgent
    else headers
  let cookie := serializeCookies jar
  if 0 < cookie.data.length && url.origin == cfg.baseOrigin then
    jsMapSet headers "cookie" cookie
  else headers

/-- An HTTP response as the client consumes it: status, body text, and the
split `Set-Cookie` header list. -/
structure HttpResponse where
  status : Int
  body : String
  setCookies : List String := []
deriving DecidableEq

/-- A transport-level failure: an abort (the timeout controller fired, or
a `TimeoutError`) or any other thrown error (DNS, connection, TLS). -/
inductive TransportFailure
  | abortError
  | networkError (msg : String)
deriving DecidableEq

/-- The outcome of one `fetch` attempt. -/
inductive FetchOutcome
  | resp (r : HttpResponse)
  | fail (f : TransportFailure)
deriving DecidableEq

/-- Model of `Response.ok`. -/
def respOk (status : Int) : Bool := 200 ≤ status && status < 300

/-- The `RETRYABLE_STATUS` set of the source. -/
def RETRYABLE_STATUS : List Int := [408, 425, 429, 500, 502, 503, 504]

/-- Model of `readSnippet`: whitespace-collapsed body, truncated to 320
characters. -/
def readSnippet (body : String) : String := ⟨(collapseWsL body.data).take 320⟩

/-- Model of `classifyResponseError`. -/
def classifyResponseError (providerId : String) (url : Url) (status : Int)
    (snippet : String) : CliAppError :=
  let classification := classifyResponse status snippet
  { code := .E_UPSTREAM_BAD_RESPONSE
  , message := providerId ++ " upstream returned HTTP " ++ toString status
  , details :=
    { provider := some providerId, url := some url.href, status := some status
    , classification := some classification, snippet := some snippet } }

/-- Model of `mapFetchError` for transport failures.  (A rethrown
`CliAppError` passes through `mapFetchError` unchanged; the loop below
models that case directly.) -/
def mapFetchError (f : TransportFailure) (providerId : String) (url : Url)
    (timeoutMs : Nat) : CliAppError :=
  match f with
  | .abortError =>
    { code := .E_UPSTREAM_TIMEOUT
    , message := providerId ++ " upstream request timed out after " ++
        toString timeoutMs ++ "ms"
    , details :=
      { provider := some providerId, url := some url.href
      , timeoutMs := some timeoutMs } }
  | .networkError msg =>
    { code := .E_UPSTREAM_NETWORK
    , message := "Failed to reach " ++ providerId ++ " upstream"
    , details :=
      { provider := some providerId, url := some url.href
      , reason := some msg } }

/-- One request the client actually issued: the target, the headers sent,
the caller-supplied headers they were built from, and the jar contents at
send time (the last two recorded for specification purposes). -/
structure IssuedRequest where
  url : Url
  headers : HeaderMap
  callerHeaders : HeaderMap
  jarAtSend : CookieJar
deriving DecidableEq

/-- The observable result of `UpstreamClient.request`: the outcome, the
jar afterwards, the requests issued, and the number of transport
invocations. -/
structure RequestResult where
  outcome : Except CliAppError HttpResponse
  jar : CookieJar
  issued : List IssuedRequest
  attemptsMade : Nat

/-- Model of the `while` loop of `UpstreamClient.request`.  `fuel` is the
number of attempts still allowed (`maxAttempts - attempt`); the transport
oracle maps the 1-based attempt number to that attempt's outcome.  A
thrown classified response error lands in the `catch`, passes through
`mapFetchError` unchanged, fails its retry-code test, and is rethrown;
this is modelled by throwing it directly.  The sleep between attempts has
no observable effect here and is omitted. -/
def requestLoop (cfg : UpstreamClientConfig) (url : Url)
    (callerHeaders : HeaderMap) (transport : Nat → FetchOutcome) :
    Nat → Nat → CookieJar → List IssuedRequest → RequestResult
  | 0, attempt, jar, log =>
    ⟨.error
      { code := .E_UNKNOWN
      , message := cfg.providerId ++ " upstream request failed unexpectedly"
      , details := { provider := some cfg.providerId, url := some url.href } },
     jar, log, attempt⟩
  | fuel + 1, attempt, jar, log =>
    let attempt := attempt + 1
    let headers := buildHeaders cfg jar url callerHeaders
    let log := log ++ [⟨url, headers, callerHeaders, jar⟩]
    match transport attempt with
    | .resp r =>
      let jar := mergeResponseCookies cfg url jar r.setCookies
      if respOk r.status then ⟨.ok r, jar, log, attempt⟩
      else
        let snippet := readSnippet r.body
        let classified := classifyResponseError cfg.providerId url r.status snippet
        if attempt < cfg.retries + 1 && RETRYABLE_STATUS.contains r.status then
          requestLoop cfg url callerHeaders transport fuel attempt jar log
        else ⟨.error classified, jar, log, attempt⟩
    | .fail f =>
      let mapped := mapFetchError f cfg.providerId url cfg.timeoutMs
      if attempt < cfg.retries + 1 &&
          (mapped.code == .E_UPSTREAM_NETWORK || mapped.code == .E_UPSTREAM_TIMEOUT) then
        requestLoop cfg url callerHeaders transport fuel attempt jar log
      else ⟨.error mapped, jar, log, attempt⟩

/-- Model of `UpstreamClient.request` on an already-resolved target URL:
runs the attempt loop with `maxAttempts = retries + 1`. -/
def request (cfg : UpstreamClientConfig) (url : Url) (callerHeaders : HeaderMap)
    (transport : Nat → FetchOutcome) (jar : CookieJar) : RequestResult :=
  requestLoop cfg url callerHeaders transport (cfg.retries + 1) 0 jar []

/-- One logical call a caller issues through the client. -/
structure ClientCall where
  url : Url
  headers : HeaderMap
  transport : Nat → FetchOutcome

/-- A sequence of requests through one client instance, threading the
cookie jar; returns the final jar and the concatenated issue log. -/
def runRequests (cfg : UpstreamClientConfig) (jar : CookieJar) :
    List ClientCall → CookieJar × List IssuedRequest
  | [] => (jar, [])
  | c :: cs =>
    let r := request cfg c.url c.headers c.transport jar
    let rest := runRequests cfg r.jar cs
    (rest.1, r.issued ++ rest.2)

/-! ## SubHD catalog parser (`src/domain/providers/subhd-parser.ts`) -/

/-- Consumes `[^>]*>`: everything up to and including the first `>`.  The
greedy `[^>]*` can only stop at the first `>` for the following literal
`>` to match, so this is the unique continuation. -/
def expectTagClose (s : List Char) : Option (List Char) :=
  match s.dropWhile (fun c => !(c == '>')) with
  | [] => none
  | _ :: rest => some rest

/-- Consumes a lazy `([\s\S]*?)` up to the first (case-insensitive)
occurrence of `endLit`, returning the capture and the remainder; `none`
when the literal never occurs.  `endLit` is non-empty for every use. -/
def captureUntilCI (endLit : List Char) : List Char → Option (List Char × List Char)
  | [] => none
  | c :: cs =>
    match stripLitCI endLit (c :: cs) with
    | some rest => some ([], rest)
    | none => (captureUntilCI endLit cs).map fun p => (c :: p.1, p.2)

/-- Consumes `[^>]*` followed by the (case-insensitive) literal `lit`:
searches for an occurrence of `lit` not preceded by any `>`.  The greedy
engine would pick the last such occurrence, but every occurrence lies
before the first `>`, so the text consumed afterwards — up to the first
`>` and beyond — is the same whichever occurrence is used; the first one
is taken. -/
def scanNoGtForLitCI (lit : List Char) : List Char → Option (List Char)
  | [] => none
  | c :: cs =>
    match stripLitCI lit (c :: cs) with
    | some rest => some rest
    | none => if c == '>' then none else scanNoGtForLitCI lit cs

/-- Global replacement of `/<[^>]*>/g` by a single space (the tag-strip
step of `cleanText`); a `<` with no later `>` is left in place.  The fuel
is the input length, which bounds the scan. -/
def stripTagsGo : Nat → List Char → List Char
  | _, [] => []
  | 0, s => s
  | fuel + 1, c :: cs =>
    if c == '<' then
      match cs.dropWhile (fun x => !(x == '>')) with
      | [] => c :: stripTagsGo fuel cs
      | _ :: rest => ' ' :: stripTagsGo fuel rest
    else c :: stripTagsGo fuel cs

/-- Tag stripping over a character list. -/
def stripTags (l : List Char) : List Char := stripTagsGo l.length l

/-- Global replacement of a non-empty literal, as `replaceAll`. -/
def replaceAllLit (needle rep : List Char) : Nat → List Char → List Char
  | _, [] => []
  | 0, s => s
  | fuel + 1, c :: cs =>
    match stripLit needle (c :: cs) with
    | some rest => rep ++ replaceAllLit needle rep fuel rest
    | none => c :: replaceAllLit needle rep fuel cs

/-- Numeric value of a digit run. -/
def digitsToNat (l : List Char) : Nat :=
  l.foldl (fun acc c => acc * 10 + (c.toNat - '0'.toNat)) 0

/-- Replacement of one numeric character reference body: the model of
`String.fromCodePoint` restricted to Unicode scalar values (the source
guards `codePoint <= 0` itself; a surrogate or out-of-range code point,
where JavaScript would produce a lone surrogate or throw, has no `Char`
representation and is modelled as the empty replacement). -/
def numericEntityChar (cp : Nat) : List Char :=
  if cp = 0 then []
  else if h : cp < 0xd800 ∨ (0xe000 ≤ cp ∧ cp < 0x110000) then
    [Char.ofNatAux cp (by rcases h with h | h <;> simp [UInt32.isValidChar, Nat.isValidChar] <;> omega)]
  else []

/-- Global replacement of `/&#(\d+);/gu`: `&#`, a non-empty digit run,
`;`, replaced by the referenced character. -/
def decodeNumericEntities : Nat → List Char → List Char
  | _, [] => []
  | 0, s => s
  | fuel + 1, c :: cs =>
    match stripLit "&#".data (c :: cs) with
    | some rest =>
      let digits := rest.takeWhile Char.isDigit
      let tail := rest.dropWhile Char.isDigit
      match digits, tail with
      | _ :: _, ';' :: after =>
        numericEntityChar (digitsToNat digits) ++ decodeNumericEntities fuel after
      | _, _ => c :: decodeNumericEntities fuel cs
    | none => c :: decodeNumericEntities fuel cs

/-- Model of `decodeHtmlEntities`: the fixed named entities, then numeric
character references. -/
def decodeHtmlEntities (l : List Char) : List Char :=
  let s := replaceAllLit "&nbsp;".data " ".data l.length l
  let s := replaceAllLit "&amp;".data "&".data s.length s
  let s := replaceAllLit "&lt;".data "<".data s.length s
  let s := replaceAllLit "&gt;".data ">".data s.length s
  let s := replaceAllLit "&quot;".data "\"".data s.length s
  let s := replaceAllLit "&#39;".data [Char.ofNat 39] s.length s
  decodeNumericEntities s.length s

/-- Model of `cleanText`: decode entities, strip tags to spaces, collapse
whitespace. -/
def cleanText (l : List Char) : List Char :=
  collapseWsL (stripTags (decodeHtmlEntities l))

/-- Model of `extractFirstText`: try each pattern in order; a match whose
cleaned capture is empty falls through to the next pattern. -/
def extractFirstText (hay : List Char)
    (patterns : List (List Char → Option (List Char))) : Option (List Char) :=
  match patterns with
  | [] => none
  | p :: ps =>
    match scanFor p hay with
    | some captured =>
      let cleaned := cleanText captured
      if 0 < cleaned.length then some cleaned else extractFirstText hay ps
    | none => extractFirstText hay ps

/-- Position matcher for the first title pattern
`/<div class="view-text[^>]*>\s*<a[^>]*>([\s\S]*?)<\/a>/iu`. -/
def subhdTitlePattern1At (s : List Char) : Option (List Char) := do
  let s ← stripLitCI "<div class=\"view-text".data s
  let s ← expectTagClose s
  let s := s.dropWhile isJsWs
  let s ← stripLitCI "<a".data s
  let s ← expectTagClose s
  let (cap, _) ← captureUntilCI "</a>".data s
  pure cap

/-- Position matcher for the second title pattern
`/<a[^>]*class="link-dark align-middle"[^>]*>([\s\S]*?)<\/a>/iu`. -/
def subhdTitlePattern2At (s : List Char) : Option (List Char) := do
  let s ← stripLitCI "<a".data s
  let s ← scanNoGtForLitCI "class=\"link-dark align-middle\"".data s
  let s ← expectTagClose s
  let (cap, _) ← captureUntilCI "</a>".data s
  pure cap

/-- Position matcher for the language-line pattern
`/<div class="text-truncate py-2 f11">([\s\S]*?)<\/div>/iu`. -/
def subhdLanguageLinePatternAt (s : List Char) : Option (List Char) := do
  let s ← stripLitCI "<div class=\"text-truncate py-2 f11\">".data s
  let (cap, _) ← captureUntilCI "</div>".data s
  pure cap

/-- Model of `extractSubhdSid`, the pattern
`/href=['"]\/a\/([A-Za-z0-9]+)['"]/u` (case-sensitive): the greedy
alphanumeric run must be followed directly by a quote, so the maximal run
is the unique candidate. -/
def extractSubhdSid (cardHtml : List Char) : Option (List Char) :=
  scanFor
    (fun s => do
      let s ← stripLit "href=".data s
      let s ←
        match s with
        | c :: rest =>
          if c == '"' || c == Char.ofNat 39 then some rest else none
        | [] => none
      let s ← stripLit "/a/".data s
      let sidRun := s.takeWhile isAsciiAlnum
      let rest := s.dropWhile isAsciiAlnum
      if sidRun.length = 0 then none
      else
        match rest with
        | c :: _ => if c == '"' || c == Char.ofNat 39 then some sidRun else none
        | [] => none)
    cardHtml

/-- Whole-word occurrence test, the model of `/\bW\b/`: the needle with no
`\w` character directly before or after. -/
def wordAtBoundary (w : List Char) (prev : Option Char) (s : List Char) : Bool :=
  (match prev with
   | none => true
   | some p => !(isWordChar p)) &&
  (match stripLit w s with
   | some [] => true
   | some (r :: _) => !(isWordChar r)
   | none => false)

/-- Scans all positions, tracking the previous character for the boundary
test. -/
def containsWordGo (w : List Char) (prev : Option Char) : List Char → Bool
  | [] => false
  | c :: cs => wordAtBoundary w prev (c :: cs) || containsWordGo w (some c) cs

/-- Whole-word containment. -/
def containsWord (w : List Char) (s : List Char) : Bool := containsWordGo w none s

/-- Model of `inferSubtitleFormat`: uppercase the text and match the fixed
whole-word vocabulary in priority order. -/
def inferSubtitleFormat (text : String) : Option SubtitleFormat :=
  let normalized := text.data.map Char.toUpper
  if containsWord "ASS".data normalized || containsWord "SSA".data normalized then
    some .ass
  else if containsWord "SRT".data normalized then some .srt
  else if containsWord "VTT".data normalized then some .vtt
  else none

/-- The filesystem-unsafe characters of `sanitizeFileStem`, the class
`[\\/:*?"<>|]`. -/
def isFsUnsafe (c : Char) : Bool :=
  c == '\\' || c == '/' || c == ':' || c == '*' || c == '?' ||
  c == '"' || c == '<' || c == '>' || c == '|'

/-- Model of `sanitizeFileStem`: collapse whitespace, blank out unsafe
characters, trim, clip to 96 characters, trim again, and fall back to
`"subtitle"` when empty. -/
def sanitizeFileStem (value : String) : String :=
  let normalized := jsTrimL ((collapseWsL value.data).map fun c =>
    if isFsUnsafe c then ' ' else c)
  let clipped := jsTrimL (normalized.take 96)
  if 0 < clipped.length then ⟨clipped⟩ else "subtitle"

/-- Position matcher for `<span[^>]*>\s*([0-9][0-9,]*)\s*<\/span>`, the
continuation of the first download-count pattern.  The greedy `[0-9,]*`
run must be followed (after optional whitespace) by `</span>`; any
shorter run ends at a digit or comma, which can neither be skipped by
`\s*` nor start `</span>`, so the maximal run is the unique candidate. -/
def subhdDownloadSpanAt (s : List Char) : Option (List Char) := do
  let s ← stripLitCI "<span".data s
  let s ← expectTagClose s
  let s := s.dropWhile isJsWs
  let num := s.takeWhile fun c => c.isDigit || c == ','
  let rest := s.dropWhile fun c => c.isDigit || c == ','
  match num with
  | [] => none
  | d :: _ =>
    if d.isDigit then
      (stripLitCI "</span>".data (rest.dropWhile isJsWs)).map fun _ => num
    else none

/-- Model of `extractDownloadCount`: the icon-adjacent span pattern
`/bi bi-download[\s\S]*?<span[^>]*>\s*([0-9][0-9,]*)\s*<\/span>/iu`, then
the labeled fallback `/下载[^0-9]*([0-9][0-9,]*)/iu`; commas are stripped
and the digits parsed (always a finite non-negative integer here). -/
def extractDownloadCount (cardHtml : List Char) : Nat :=
  let m1 :=
    scanFor
      (fun s => do
        let s ← stripLitCI "bi bi-download".data s
        scanFor subhdDownloadSpanAt s)
      cardHtml
  let m :=
    match m1 with
    | some n => some n
    | none =>
      scanFor
        (fun s => do
          let s ← stripLit "下载".data s
          match s.dropWhile (fun c : Char => !c.isDigit) with
          | [] => none
          | rest => some (rest.takeWhile fun c : Char => c.isDigit || c == ','))
        cardHtml
  match m with
  | none => 0
  | some num => digitsToNat (num.filter Char.isDigit)

/-- Model of `inferLanguage`: fixed keyword sets matched case-insensitively
against the combined hint-plus-title text, in priority order. -/
def inferLanguage (languageLine title : String) : String :=
  let lc := lcL (languageLine.data ++ " ".data ++ title.data)
  if containsSubL "简体".data lc || containsSubL "简中".data lc ||
      containsSubL "chs".data lc || containsSubL "zh-cn".data lc then "zh-cn"
  else if containsSubL "繁体".data lc || containsSubL "繁中".data lc ||
      containsSubL "cht".data lc || containsSubL "zh-tw".data lc then "zh-tw"
  else if containsSubL "英语".data lc || containsSubL "英文".data lc ||
      containsWord "eng".data lc || containsWord "en".data lc then "en"
  else if containsSubL "双语".data lc || containsSubL "中英".data lc ||
      containsSubL "中字".data lc || containsSubL "中文".data lc then "zh-cn"
  else "zh"

/-- Model of the hearing-impaired test `/听障|聋哑|sdh|\bhi\b/iu` on the
combined title-plus-hint text. -/
def subhdHearingImpairedTest (title languageLine : String) : Bool :=
  let lc := lcL (title.data ++ " ".data ++ languageLine.data)
  containsSubL "听障".data lc || containsSubL "聋哑".data lc ||
    containsSubL "sdh".data lc || containsWord "hi".data lc

/-- The `SubhdSearchItem` record of the source (`downloads` is produced by
`Number.parseInt` under a non-negativity guard, hence a natural number). -/
structure SubhdSearchItem where
  sid : String
  title : String
  language : String
  format : SubtitleFormat
  downloads : Nat
  hearingImpaired : Option Bool := none
deriving DecidableEq

/-- The `SUBHD_CARD_MARKER` constant of the source. -/
def SUBHD_CARD_MARKER : String := "<div class=\"bg-white shadow-sm rounded-3 mb-4\">"

/-- Model of `String.prototype.split` on a non-empty literal separator;
fuel is the input length, which bounds the scan. -/
def jsSplitGo (sep : List Char) : Nat → List Char → List Char → List (List Char)
  | _, [], acc => [acc.reverse]
  | 0, s, acc => [acc.reverse ++ s]
  | fuel + 1, c :: cs, acc =>
    match stripLit sep (c :: cs) with
    | some rest => acc.reverse :: jsSplitGo sep fuel rest []
    | none => jsSplitGo sep fuel cs (c :: acc)

/-- Split of a character list at every occurrence of a literal. -/
def jsSplit (sep : List Char) (s : List Char) : List (List Char) :=
  jsSplitGo sep s.length s []

/-- The fields extracted from one result card for a known sid (the loop
body of `parseSubhdSearchItems`). -/
def buildSubhdSearchItem (card : List Char) (sid : String) : SubhdSearchItem :=
  let title :=
    match extractFirstText card [subhdTitlePattern1At, subhdTitlePattern2At] with
    | some t => (⟨t⟩ : String)
    | none => "SubHD subtitle " ++ sid
  let languageLine :=
    match extractFirstText card [subhdLanguageLinePatternAt] with
    | some t => (⟨t⟩ : String)
    | none => ""
  let format := (inferSubtitleFormat (languageLine ++ "\n" ++ title)).getD .srt
  let downloads := extractDownloadCount card
  let hearingImpaired := subhdHearingImpairedTest title languageLine
  { sid, title, language := inferLanguage languageLine title, format, downloads,
    hearingImpaired := if hearingImpaired then some true else none }

/-- Model of `parseSubhdSearchItems`: split the document at the card
marker, drop the preamble, extract each card's sid (skipping cards
without one), store the card's item in an insertion-ordered map keyed by
sid (`Map.prototype.set` overwrites in place), and return the map's
values. -/
def parseSubhdSearchItems (html : String) : List SubhdSearchItem :=
  let cards := (jsSplit SUBHD_CARD_MARKER.data html.data).drop 1
  let deduped :=
    cards.foldl
      (fun deduped card =>
        match extractSubhdSid card with
        | none => deduped
        | some sidChars =>
          let sid : String := ⟨sidChars⟩
          jsMapSet deduped sid (buildSubhdSearchItem card sid))
      ([] : List (String × SubhdSearchItem))
  deduped.map (·.2)

/-- Position matcher for `/<h5 class="card-header">([\s\S]*?)<\/h5>/iu`. -/
def subhdDownTitlePattern1At (s : List Char) : Option (List Char) := do
  let s ← stripLitCI "<h5 class=\"card-header\">".data s
  let (cap, _) ← captureUntilCI "</h5>".data s
  pure cap

/-- Position matcher for `/<div class="f16 fw-bold mb-2">([\s\S]*?)<\/div>/iu`. -/
def subhdDownTitlePattern2At (s : List Char) : Option (List Char) := do
  let s ← stripLitCI "<div class=\"f16 fw-bold mb-2\">".data s
  let (cap, _) ← captureUntilCI "</div>".data s
  pure cap

/-- Position matcher for
`/<th[^>]*>字幕版本<\/th>\s*<td>([\s\S]*?)<\/td>/iu`. -/
def subhdVersionCellPatternAt (s : List Char) : Option (List Char) := do
  let s ← stripLitCI "<th".data s
  let s ← expectTagClose s
  let s ← stripLitCI "字幕版本</th>".data s
  let s := s.dropWhile isJsWs
  let s ← stripLitCI "<td>".data s
  let (cap, _) ← captureUntilCI "</td>".data s
  pure cap

/-- The `SubhdDownloadPage` record of the source. -/
structure SubhdDownloadPage where
  sid : String
  title : String
  fileStem : String
  format : Option SubtitleFormat := none
deriving DecidableEq

/-- Model of `parseSubhdDownloadPage`. -/
def parseSubhdDownloadPage (html : String) (sid : String) : SubhdDownloadPage :=
  let title :=
    match extractFirstText html.data [subhdDownTitlePattern1At, subhdDownTitlePattern2At] with
    | some t => (⟨t⟩ : String)
    | none => "subhd-" ++ sid
  let versionCell :=
    match extractFirstText html.data [subhdVersionCellPatternAt] with
    | some t => (⟨t⟩ : String)
    | none => ""
  let format := inferSubtitleFormat (versionCell ++ "\n" ++ title)
  { sid, title, fileStem := sanitizeFileStem title, format }

/-! ## SubHD provider (`src/domain/providers/subhd.ts`) -/

/-- Decidable equality for `Except`, used to evaluate provider outcomes on
concrete inputs. -/
instance exceptDecEq {ε : Type u} {α : Type v} [DecidableEq ε] [DecidableEq α] :
    DecidableEq (Except ε α) := fun x y =>
  match x, y with
  | .error a, .error b =>
    if h : a = b then isTrue (h ▸ rfl) else isFalse fun he => h (Except.error.inj he)
  | .ok a, .ok b =>
    if h : a = b then isTrue (h ▸ rfl) else isFalse fun he => h (Except.ok.inj he)
  | .error _, .ok _ => isFalse fun he => Except.noConfusion he
  | .ok _, .error _ => isFalse fun he => Except.noConfusion he

/-- The `SUBHD_ID_PREFIX` constant `"subhd:"` of the source (renamed). -/
def subhdIdHead : String := "subhd:"

/-- The test `/^[A-Za-z0-9]+$/u.test(s)`. -/
def isAlnumString (s : String) : Bool :=
  0 < s.data.length && s.data.all isAsciiAlnum

/-- Model of `toSubhdProviderId`. -/
def toSubhdProviderId (sid : String) : String := subhdIdHead ++ sid

/-- Model of `parseSubhdProviderId`: trim; accept `subhd:` followed by an
alphanumeric sid, or a bare alphanumeric sid; otherwise raise the
not-found error (`startsWith` plus `slice` is the `stripLit` match). -/
def parseSubhdProviderId (id : String) : Except CliAppError String :=
  let normalized := jsTrim id
  let fallback : Except CliAppError String :=
    if isAlnumString normalized then .ok normalized
    else
      .error
        { code := .E_NOT_FOUND_RESOURCE
        , message := "SubHD subtitle not found: " ++ id
        , details := { provider := some "subhd", id := some id } }
  match stripLit subhdIdHead.data normalized.data with
  | some sidChars =>
    if isAlnumString ⟨sidChars⟩ then .ok (⟨sidChars⟩ : String) else fallback
  | none => fallback

/-- Model of `normalizeErrorMessage`. -/
def normalizeErrorMessage (value : Option String) : String :=
  match value with
  | some s => jsTrim s
  | none => ""

/-- The challenge-message test of `createSubhdDownloadApiError`:
`looksLikeAntiBotChallenge(message) || /临时页面|验证|验证码/u.test(message)`. -/
def subhdChallengeMsgTest (message : String) : Bool :=
  looksLikeAntiBotChallenge message ||
    containsSubL "临时页面".data message.data ||
    containsSubL "验证".data message.data ||
    containsSubL "验证码".data message.data

/-- The rate-limit-message test `/频繁|次数|rate\s*limit|too\s*many/iu`. -/
def subhdRateMsgTest (message : String) : Bool :=
  let lc := lcL message.data
  containsSubL "频繁".data lc || containsSubL "次数".data lc ||
    anySuffix (fun s =>
      ((stripLit "rate".data s).bind fun s1 =>
        stripLit "limit".data (s1.dropWhile isJsWs)).isSome) lc ||
    anySuffix (fun s =>
      ((stripLit "too".data s).bind fun s1 =>
        stripLit "many".data (s1.dropWhile isJsWs)).isSome) lc

/-- Model of `createSubhdChallengeError`. -/
def createSubhdChallengeError (url : String) (reason : String)
    (sid : Option String) (message : Option String) : CliAppError :=
  { code := .E_UPSTREAM_BAD_RESPONSE
  , message := "SubHD requires anti-bot verification before download"
  , details :=
    { provider := some "subhd", classification := some .antiBot
    , url := some url, reason := some reason, sid, message } }

/-- Model of `createSubhdDownloadApiError`: the classification of a
non-success second-stage payload.  The message-text branches fire only
when `payload.success` is exactly `false`. -/
def createSubhdDownloadApiError (sid : String)
    (payload : SubhdDownloadApiPayload) (url : String) : CliAppError :=
  let message := normalizeErrorMessage payload.msg
  if payload.success == some false && subhdChallengeMsgTest message then
    createSubhdChallengeError url "download-gate-rejected" (some sid) (some message)
  else if payload.success == some false && subhdRateMsgTest message then
    { code := .E_UPSTREAM_BAD_RESPONSE
    , message := "SubHD rate limited the download request"
    , details :=
      { provider := some "subhd", sid := some sid, url := some url
      , classification := some .rateLimit, message := some message } }
  else
    { code := .E_UPSTREAM_BAD_RESPONSE
    , message := "SubHD download gate returned an unexpected response"
    , details :=
      { provider := some "subhd", sid := some sid, url := some url
      , classification := some .badResponse, payload := some payload } }

/-- The WHATWG URL platform functions the provider uses, abstracted:
`resolve v base` models `new URL(v, base).toString()` (`none` when the
constructor throws), `pathnameOf` models `new URL(u).pathname` with `""`
on failure, `decodeComponent` models `decodeURIComponent`, and
`encodeComponent` models `encodeURIComponent`. -/
structure UrlLib where
  resolve : String → String → Option String
  pathnameOf : String → String
  decodeComponent : String → String
  encodeComponent : String → String

/-- Model of `resolveSubhdDownloadUrl`. -/
def resolveSubhdDownloadUrl (U : UrlLib) (baseUrl : String)
    (value : Option String) : Option String :=
  match value with
  | none => none
  | some v =>
    if (jsTrim v).data.length = 0 then none else U.resolve v baseUrl

/-- Model of `inferSubtitleFormatFromUrl`, the pattern
`/\.([A-Za-z0-9]{2,5})(?:$|[?#])/u`: a dot, a 2-to-5 character
alphanumeric run, then end-of-string, `?`, or `#`.  A shorter prefix of a
longer run would be followed by an alphanumeric, so only the maximal run
(of length 2 to 5) can match. -/
def inferSubtitleFormatFromUrl (url : String) : Option SubtitleFormat :=
  (scanFor
    (fun s => do
      let s ← stripLit ".".data s
      let run := s.takeWhile isAsciiAlnum
      let rest := s.dropWhile isAsciiAlnum
      if 2 ≤ run.length && run.length ≤ 5 then
        match rest with
        | [] => some run
        | c :: _ => if c == '?' || c == '#' then some run else none
      else none)
    url.data).bind fun ext => inferSubtitleFormat ⟨ext⟩

/-- Model of `selectFileName`: the last non-empty path segment of the
resolved URL when present (URI-decoded), else the sanitized page stem plus
the format extension. -/
def selectFileName (U : UrlLib) (fileStem : String) (sourceUrl : String)
    (format : SubtitleFormat) : String :=
  let pathname := U.pathnameOf sourceUrl
  let baseName :=
    ((jsSplit "/".data pathname.data).filter fun seg => 0 < seg.length).getLast?
  match baseName with
  | some b => U.decodeComponent ⟨b⟩
  | none => sanitizeFileStem fileStem ++ "." ++ format.str

/-- The `SubtitleDownloadPlan` record of the source. -/
structure SubtitleDownloadPlan where
  id : String
  providerId : String
  fileName : String
  sourceUrl : String
  format : SubtitleFormat
deriving DecidableEq

/-- The upstream answers one `getDownloadPlan` run consumes: the gate-page
`requestText` result and the `/api/sub/down` `requestJson` result. -/
structure SubhdGateOracles where
  downPage : Except CliAppError String
  api : Except CliAppError SubhdDownloadApiPayload

/-- Model of the provider's `getDownloadPlan`, returning the outcome
together with the number of upstream client calls performed: validate the
id (before any upstream call), fetch the gate page, reject challenge
pages, parse the page, perform the second-stage call, classify non-success
payloads, and otherwise assemble the plan. -/
def getDownloadPlan (U : UrlLib) (baseUrl : String) (o : SubhdGateOracles)
    (id : String) : Except CliAppError SubtitleDownloadPlan × Nat :=
  match parseSubhdProviderId id with
  | .error e => (.error e, 0)
  | .ok sid =>
    let downPageUrl := baseUrl ++ "down/" ++ U.encodeComponent sid
    match o.downPage with
    | .error e => (.error e, 1)
    | .ok html =>
      if looksLikeAntiBotChallenge html then
        (.error (createSubhdChallengeError downPageUrl "download-gate-challenge" none none), 1)
      else
        let page := parseSubhdDownloadPage html sid
        match o.api with
        | .error e => (.error e, 2)
        | .ok apiPayload =>
          match resolveSubhdDownloadUrl U baseUrl apiPayload.url with
          | none => (.error (createSubhdDownloadApiError sid apiPayload downPageUrl), 2)
          | some sourceUrl =>
            if !(apiPayload.success == some true) || !(apiPayload.pass == some true) then
              (.error (createSubhdDownloadApiError sid apiPayload downPageUrl), 2)
            else
              let sourceFormat := inferSubtitleFormatFromUrl sourceUrl
              let format := (sourceFormat.orElse fun _ => page.format).getD .srt
              let fileName := selectFileName U page.fileStem sourceUrl format
              (.ok
                { id := toSubhdProviderId sid, providerId := "subhd"
                , fileName, sourceUrl, format }, 2)

/-! ## Spec-side definitions

The following definitions are written from the specification's wording
(not from the source) and are compared with the embedded code in the
theorems below. -/

/-- Strict lexicographic order on strings (by code point). -/
def lexLt (a b : String) : Prop := cmpCharL a.data b.data = .lt

/-- Non-strict lexicographic order on strings (by code point). -/
def lexLe (a b : String) : Prop := cmpCharL a.data b.data ≠ .gt

instance : DecidablePred (fun p : String × String => lexLt p.1 p.2) :=
  fun _ => inferInstanceAs (Decidable (_ = _))

/-- The sort key of a scored candidate: score, download count, catalog
(provider) id, candidate id. -/
def scoredKey (x : ScoredSubtitleResult) : ℚ × ℚ × String × String :=
  (x.score, x.cand.downloads, x.cand.providerId, x.cand.id)

/-- The ordering the specification describes for ranked output, as a
relation on sort keys: strictly descending score; ties broken by
descending download count, then catalog id ascending lexicographically,
then candidate id ascending lexicographically. -/
def specKeyLe (a b : ℚ × ℚ × String × String) : Prop :=
  b.1 < a.1 ∨
    (a.1 = b.1 ∧
      (b.2.1 < a.2.1 ∨
        (a.2.1 = b.2.1 ∧
          (lexLt a.2.2.1 b.2.2.1 ∨
            (a.2.2.1 = b.2.2.1 ∧ lexLe a.2.2.2 b.2.2.2)))))

/-- The specification's ranked-output ordering on scored records. -/
def specScoredOrder (x y : ScoredSubtitleResult) : Prop :=
  specKeyLe (scoredKey x) (scoredKey y)

/-- The specification's first-match-wins classification: status 429 or a
rate-limit body pattern is a rate limit; otherwise status 401/403 or an
anti-bot body signature is anti-bot; otherwise a bad response. -/
def specClassify (status : Int) (snippet : String) : Classification :=
  if status = 429 ∨ rateLimitSnippetTest snippet = true then .rateLimit
  else if status = 401 ∨ status = 403 ∨ looksLikeAntiBotChallenge snippet = true then .antiBot
  else .badResponse

/-- A transport attempt outcome after which the source retries (provided
attempts remain): a network failure, a timeout, or a response whose status
lies in the retriable set. -/
def retriableFailure (o : FetchOutcome) : Prop :=
  match o with
  | .resp r => respOk r.status = false ∧ r.status ∈ RETRYABLE_STATUS
  | .fail _ => True

instance : DecidablePred retriableFailure := fun o => by
  cases o <;> simp [retriableFailure] <;> infer_instance

/-- The classified error the client raises for a given final attempt
outcome. -/
def failureOf (cfg : UpstreamClientConfig) (url : Url) (o : FetchOutcome) :
    CliAppError :=
  match o with
  | .resp r => classifyResponseError cfg.providerId url r.status (readSnippet r.body)
  | .fail f => mapFetchError f cfg.providerId url cfg.timeoutMs

/-- Strips the rank from a ranked record, recovering the scored record it
was built from. -/
def eraseRank (r : RankedSubtitleResult) : ScoredSubtitleResult :=
  ⟨r.cand, r.score, r.reasons⟩

/-- The invariant the cookie jar maintains from its empty start: every
stored cookie name is non-empty (so the serialized header is non-empty
whenever the jar is). -/
def jarNamesOk (jar : CookieJar) : Prop := ∀ p ∈ jar, p.1.data ≠ []

/-- The per-card entry the search parser inserts into its
deduplication map: the card's sid (when one is found) paired with the
item built from the card. -/
def subhdCardEntry (card : List Char) : Option (String × SubhdSearchItem) :=
  (extractSubhdSid card).map fun sidChars =>
    ((⟨sidChars⟩ : String), buildSubhdSearchItem card (⟨sidChars⟩ : String))

/-- A search-result card used to probe duplicate-sid handling: sid
`ab12`, download count 1. -/
def subhdDupCardA : String :=
  "<a href=\"/a/ab12\">t</a><div class=\"text-truncate py-2 f11\">简体 SRT</div>下载 1"

/-- The same card with download count 247. -/
def subhdDupCardB : String :=
  "<a href=\"/a/ab12\">t</a><div class=\"text-truncate py-2 f11\">简体 SRT</div>下载 247"

/-- A document containing two result containers that share the sid
`ab12` but differ in download count. -/
def subhdDupHtml : String :=
  SUBHD_CARD_MARKER ++ subhdDupCardA ++ SUBHD_CARD_MARKER ++ subhdDupCardB

/-- The same document truncated to its first container only. -/
def subhdDupHtmlFirstOnly : String := SUBHD_CARD_MARKER ++ subhdDupCardA

/-- A URL library for concrete runs: `resolve` returns the candidate
string unchanged (an absolute URL resolves to itself), `pathnameOf`
returns the empty string, and component encoding and decoding are the
identity. -/
def urlLibId : UrlLib :=
  { resolve := fun v _ => some v
  , pathnameOf := fun _ => ""
  , decodeComponent := fun s => s
  , encodeComponent := fun s => s }

/-- A second-stage payload whose message matches the verification-phrase
test but whose `success` field is `true` (with `pass` false): the
download gate rejects it, yet the message-text classification branch does
not fire. -/
def subhdChallengeMsgPayload : SubhdDownloadApiPayload :=
  { success := some true, pass := some false
  , msg := some "验证码", url := some "https://dl.example.com/f.srt" }

/-- Oracles delivering a benign gate page and the payload above. -/
def subhdBenignOracles : SubhdGateOracles :=
  { downPage := .ok "<html><body>ok</body></html>"
  , api := .ok subhdChallengeMsgPayload }

/-- A concrete float model for witness runs: `log10` is constantly 0,
rounding is constantly 7, and `toFixed(3)` is constantly `"q"`. -/
def floatModel0 : FloatModel :=
  { log10 := fun _ => 0, round6 := fun _ => 7, fixed3 := fun _ => "q" }

/-- A concrete request input for witness runs. -/
def requestInput0 : SubtitleRequestInput :=
  { query := "The Matrix", languages := some ["en", "zh-CN"] }

/-- A concrete normalized request for witness runs. -/
def request0 : NormalizedSubtitleRequest :=
  normalizeSubtitleRequest requestInput0

/-- A concrete candidate for witness runs. -/
def cand1 : ProviderSubtitleResult :=
  { id := "a", providerId := "subhd", title := "The Matrix"
  , language := "zh-cn", format := .srt, downloads := 3 }

/-- A second concrete candidate, differing from the first in id only. -/
def cand2 : ProviderSubtitleResult :=
  { id := "b", providerId := "subhd", title := "The Matrix"
  , language := "zh-cn", format := .srt, downloads := 3 }

/-! ## Lemmas: lexicographic comparison -/

theorem char_toNat_inj {a b : Char} (h : a.toNat = b.toNat) : a = b :=
  Char.ext (UInt32.ext h)

theorem cmpChar_eq_iff {a b : Char} : cmpChar a b = .eq ↔ a = b := by
  unfold cmpChar
  split_ifs with h1 h2
  · exact ⟨(fun h => by cases h), (fun h => by subst h; exact absurd h1 (lt_irrefl _))⟩
  · exact ⟨(fun h => by cases h), (fun h => by subst h; exact absurd h2 (lt_irrefl _))⟩
  · exact ⟨(fun _ => char_toNat_inj (by omega)), (fun _ => rfl)⟩

theorem cmpChar_swap (a b : Char) : cmpChar b a = (cmpChar a b).swap := by
  unfold cmpChar
  rcases Nat.lt_trichotomy a.toNat b.toNat with h | h | h
  · simp [h, Nat.lt_asymm h, Ordering.swap]
  · simp [h, Nat.lt_irrefl, Ordering.swap]
  · simp [h, Nat.lt_asymm h, Ordering.swap]

theorem cmpChar_lt_trans {a b c : Char} (h1 : cmpChar a b = .lt)
    (h2 : cmpChar b c = .lt) : cmpChar a c = .lt := by
  unfold cmpChar at h1 h2 ⊢
  split_ifs at h1 h2 ⊢ <;> simp_all <;> omega

theorem cmpCharL_cons (a b : Char) (as bs : List Char) :
    cmpCharL (a :: as) (b :: bs) =
      match cmpChar a b with
      | .eq => cmpCharL as bs
      | o => o := rfl

theorem cmpCharL_swap : ∀ (l₁ l₂ : List Char), cmpCharL l₂ l₁ = (cmpCharL l₁ l₂).swap
  | [], [] => rfl
  | [], _ :: _ => rfl
  | _ :: _, [] => rfl
  | a :: as, b :: bs => by
    rw [cmpCharL_cons, cmpCharL_cons, cmpChar_swap a b]
    cases h : cmpChar a b <;> simp [Ordering.swap, cmpCharL_swap as bs]

theorem cmpCharL_eq_iff : ∀ {l₁ l₂ : List Char}, cmpCharL l₁ l₂ = .eq ↔ l₁ = l₂
  | [], [] => by simp [cmpCharL]
  | [], _ :: _ => by simp [cmpCharL]
  | _ :: _, [] => by simp [cmpCharL]
  | a :: as, b :: bs => by
    rw [cmpCharL_cons]
    cases h : cmpChar a b
    · show Ordering.lt = .eq ↔ _
      constructor
      · intro hc; cases hc
      · rintro hc
        injection hc with hc1 _
        rw [cmpChar_eq_iff.mpr hc1] at h; cases h
    · have hab : a = b := cmpChar_eq_iff.mp h
      subst hab
      show cmpCharL as bs = .eq ↔ _
      rw [@cmpCharL_eq_iff as bs]
      simp
    · show Ordering.gt = .eq ↔ _
      constructor
      · intro hc; cases hc
      · rintro hc
        injection hc with hc1 _
        rw [cmpChar_eq_iff.mpr hc1] at h; cases h

theorem cmpCharL_lt_trans :
    ∀ {l₁ l₂ l₃ : List Char}, cmpCharL l₁ l₂ = .lt → cmpCharL l₂ l₃ = .lt →
      cmpCharL l₁ l₃ = .lt
  | [], [], _ => by simp [cmpCharL]
  | [], _ :: _, [] => by intro _ h; exact absurd h (by simp [cmpCharL])
  | [], _ :: _, _ :: _ => by intro _ _; simp [cmpCharL]
  | _ :: _, [], _ => by intro h _; exact absurd h (by simp [cmpCharL])
  | _ :: _, _ :: _, [] => by intro _ h; exact absurd h (by simp [cmpCharL])
  | a :: as, b :: bs, c :: cs => by
    intro h1 h2
    rw [cmpCharL_cons] at h1 h2 ⊢
    cases hab : cmpChar a b <;> rw [hab] at h1
    case lt =>
      cases hbc : cmpChar b c <;> rw [hbc] at h2
      case lt => rw [cmpChar_lt_trans hab hbc]
      case eq =>
        rw [cmpChar_eq_iff.mp hbc] at hab
        rw [hab]
      case gt => exact absurd h2 (by simp)
    case eq =>
      cases hbc : cmpChar b c <;> rw [hbc] at h2
      case lt =>
        rw [← cmpChar_eq_iff.mp hab] at hbc
        rw [hbc]
      case eq =>
        have hab' : a = b := cmpChar_eq_iff.mp hab
        have hbc' : b = c := cmpChar_eq_iff.mp hbc
        subst hab'; subst hbc'
        rw [cmpChar_eq_iff.mpr rfl]
        exact cmpCharL_lt_trans h1 h2
      case gt => exact absurd h2 (by simp)
    case gt => exact absurd h1 (by simp)

theorem cmpCharL_ne_gt_iff {l₁ l₂ : List Char} :
    cmpCharL l₁ l₂ ≠ .gt ↔ cmpCharL l₁ l₂ = .lt ∨ l₁ = l₂ := by
  rw [← cmpCharL_eq_iff]
  cases cmpCharL l₁ l₂ <;> simp

theorem lexLe_total (a b : String) : lexLe a b ∨ lexLe b a := by
  unfold lexLe
  rw [cmpCharL_swap a.data b.data]
  cases cmpCharL a.data b.data <;> simp [Ordering.swap]

theorem lexLt_or_eq_or_gt (a b : String) : lexLt a b ∨ a = b ∨ lexLt b a := by
  unfold lexLt
  cases h : cmpCharL a.data b.data
  · exact Or.inl rfl
  · exact Or.inr (Or.inl (String.ext (cmpCharL_eq_iff.mp h)))
  · refine Or.inr (Or.inr ?_)
    rw [cmpCharL_swap a.data b.data, h]
    rfl

theorem lexLe_trans {a b c : String} (h1 : lexLe a b) (h2 : lexLe b c) :
    lexLe a c := by
  unfold lexLe at h1 h2 ⊢
  rcases cmpCharL_ne_gt_iff.mp h1 with h1 | h1 <;>
    rcases cmpCharL_ne_gt_iff.mp h2 with h2 | h2
  · exact cmpCharL_ne_gt_iff.mpr (Or.inl (cmpCharL_lt_trans h1 h2))
  · exact cmpCharL_ne_gt_iff.mpr (Or.inl (h2 ▸ h1))
  · exact cmpCharL_ne_gt_iff.mpr (Or.inl (h1 ▸ h2))
  · exact cmpCharL_ne_gt_iff.mpr (Or.inr (h1.trans h2))

theorem lexLe_antisymm {a b : String} (h1 : lexLe a b) (h2 : lexLe b a) :
    a = b := by
  unfold lexLe at h1 h2
  rw [cmpCharL_swap a.data b.data] at h2
  rcases cmpCharL_ne_gt_iff.mp h1 with h1' | h1'
  · rw [h1'] at h2; simp [Ordering.swap] at h2
  · exact String.ext h1'

theorem lexLt_trans {a b c : String} (h1 : lexLt a b) (h2 : lexLt b c) :
    lexLt a c := cmpCharL_lt_trans h1 h2

theorem lexLt_irrefl (a : String) : ¬ lexLt a a := by
  unfold lexLt
  rw [cmpCharL_eq_iff.mpr rfl]
  simp

theorem lexLt_asymm {a b : String} (h : lexLt a b) : ¬ lexLt b a := by
  intro h2
  exact lexLt_irrefl a (lexLt_trans h h2)

theorem lexLt_ne {a b : String} (h : lexLt a b) : a ≠ b := by
  rintro rfl
  exact lexLt_irrefl a h

theorem lexLt_le {a b : String} (h : lexLt a b) : lexLe a b := by
  unfold lexLe
  rw [h]
  simp

theorem lexLt_of_lexLe_of_lexLt {a b c : String} (h1 : lexLe a b)
    (h2 : lexLt b c) : lexLt a c := by
  rcases cmpCharL_ne_gt_iff.mp h1 with h1' | h1'
  · exact lexLt_trans h1' h2
  · exact (String.ext h1') ▸ h2

/-! ## Lemmas: the ranking order -/

theorem specKeyLe_total (a b : ℚ × ℚ × String × String) :
    specKeyLe a b ∨ specKeyLe b a := by
  obtain ⟨as, ad, ap, ai⟩ := a
  obtain ⟨bs, bd, bp, bi⟩ := b
  unfold specKeyLe
  simp only []
  rcases lt_trichotomy as bs with h | h | h
  · right; left; exact h
  · subst h
    rcases lt_trichotomy ad bd with h | h | h
    · right; right; exact ⟨rfl, Or.inl h⟩
    · subst h
      rcases lexLt_or_eq_or_gt ap bp with h | h | h
      · left; right; exact ⟨rfl, Or.inr ⟨rfl, Or.inl h⟩⟩
      · subst h
        rcases lexLe_total ai bi with h | h
        · left; right; exact ⟨rfl, Or.inr ⟨rfl, Or.inr ⟨rfl, h⟩⟩⟩
        · right; right; exact ⟨rfl, Or.inr ⟨rfl, Or.inr ⟨rfl, h⟩⟩⟩
      · right; right; exact ⟨rfl, Or.inr ⟨rfl, Or.inl h⟩⟩
    · left; right; exact ⟨rfl, Or.inl h⟩
  · left; left; exact h

theorem specKeyLe_trans {a b c : ℚ × ℚ × String × String}
    (h1 : specKeyLe a b) (h2 : specKeyLe b c) : specKeyLe a c := by
  obtain ⟨as, ad, ap, ai⟩ := a
  obtain ⟨bs, bd, bp, bi⟩ := b
  obtain ⟨cs, cd, cp, ci⟩ := c
  unfold specKeyLe at h1 h2 ⊢
  simp only [] at h1 h2 ⊢
  rcases h1 with h1 | ⟨hs1, h1⟩
  · rcases h2 with h2 | ⟨hs2, h2⟩
    · exact Or.inl (h2.trans h1)
    · exact Or.inl (hs2 ▸ h1)
  · rcases h2 with h2 | ⟨hs2, h2⟩
    · exact Or.inl (hs1 ▸ h2)
    · refine Or.inr ⟨hs1.trans hs2, ?_⟩
      rcases h1 with h1 | ⟨hd1, h1⟩
      · rcases h2 with h2 | ⟨hd2, h2⟩
        · exact Or.inl (h2.trans h1)
        · exact Or.inl (hd2 ▸ h1)
      · rcases h2 with h2 | ⟨hd2, h2⟩
        · exact Or.inl (hd1 ▸ h2)
        · refine Or.inr ⟨hd1.trans hd2, ?_⟩
          rcases h1 with h1 | ⟨hp1, h1⟩
          · rcases h2 with h2 | ⟨hp2, h2⟩
            · exact Or.inl (lexLt_trans h1 h2)
            · exact Or.inl (hp2 ▸ h1)
          · rcases h2 with h2 | ⟨hp2, h2⟩
            · exact Or.inl (hp1 ▸ h2)
            · exact Or.inr ⟨hp1.trans hp2, lexLe_trans h1 h2⟩

theorem specKeyLe_antisymm {a b : ℚ × ℚ × String × String}
    (h1 : specKeyLe a b) (h2 : specKeyLe b a) : a = b := by
  obtain ⟨as, ad, ap, ai⟩ := a
  obtain ⟨bs, bd, bp, bi⟩ := b
  unfold specKeyLe at h1 h2
  simp only [] at h1 h2
  rcases h1 with h1 | ⟨hs1, h1⟩
  · rcases h2 with h2 | ⟨hs2, h2⟩
    · exact absurd (h1.trans h2) (lt_irrefl _)
    · exact absurd h1 (hs2 ▸ lt_irrefl _)
  · rcases h2 with h2 | ⟨hs2, h2⟩
    · exact absurd h2 (hs1 ▸ lt_irrefl _)
    · subst hs1
      rcases h1 with h1 | ⟨hd1, h1⟩
      · rcases h2 with h2 | ⟨hd2, h2⟩
        · exact absurd (h1.trans h2) (lt_irrefl _)
        · exact absurd h1 (hd2 ▸ lt_irrefl _)
      · rcases h2 with h2 | ⟨hd2, h2⟩
        · exact absurd h2 (hd1 ▸ lt_irrefl _)
        · subst hd1
          rcases h1 with h1 | ⟨hp1, h1⟩
          · rcases h2 with h2 | ⟨hp2, h2⟩
            · exact absurd (lexLt_trans h1 h2) (lexLt_irrefl _)
            · exact absurd h1 (hp2 ▸ lexLt_irrefl _)
          · rcases h2 with h2 | ⟨hp2, h2⟩
            · exact absurd h2 (hp1 ▸ lexLt_irrefl _)
            · subst hp1
              rw [lexLe_antisymm h1 h2]

theorem lexLe_ne_lt {a b : String} (h1 : lexLe a b) (h2 : a ≠ b) :
    lexLt a b := by
  rcases cmpCharL_ne_gt_iff.mp h1 with h | h
  · exact h
  · exact absurd (String.ext h) h2

theorem localeCompareQ_nonpos_iff {a b : String} :
    localeCompareQ a b ≤ 0 ↔ lexLe a b := by
  unfold localeCompareQ lexLe
  cases h : cmpCharL a.data b.data
  · exact ⟨fun _ => by simp, fun _ => by norm_num⟩
  · exact ⟨fun _ => by simp, fun _ => le_refl 0⟩
  · exact ⟨fun hx => by norm_num at hx, fun hx => absurd rfl hx⟩

theorem localeCompareQ_eq_zero_iff {a b : String} :
    localeCompareQ a b = 0 ↔ a = b := by
  unfold localeCompareQ
  cases h : cmpCharL a.data b.data
  · constructor
    · intro hx; norm_num at hx
    · rintro rfl; rw [cmpCharL_eq_iff.mpr rfl] at h; cases h
  · exact ⟨fun _ => String.ext (cmpCharL_eq_iff.mp h), fun _ => rfl⟩
  · constructor
    · intro hx; norm_num at hx
    · rintro rfl; rw [cmpCharL_eq_iff.mpr rfl] at h; cases h

theorem jsSortRel_cmpScored_iff (x y : ScoredSubtitleResult) :
    jsSortRel cmpScored x y ↔ specScoredOrder x y := by
  unfold jsSortRel cmpScored specScoredOrder specKeyLe scoredKey
  by_cases hs : y.score = x.score
  · rw [if_neg (by simp [hs])]
    by_cases hd : y.cand.downloads = x.cand.downloads
    · rw [if_neg (by simp [hd])]
      by_cases hp : localeCompareQ x.cand.providerId y.cand.providerId = 0
      · rw [if_neg (by simp [hp])]
        have hpe : x.cand.providerId = y.cand.providerId :=
          localeCompareQ_eq_zero_iff.mp hp
        rw [localeCompareQ_nonpos_iff]
        constructor
        · intro h
          exact Or.inr ⟨hs.symm, Or.inr ⟨hd.symm, Or.inr ⟨hpe, h⟩⟩⟩
        · rintro (h | ⟨_, h | ⟨_, h | ⟨_, h⟩⟩⟩)
          · exact absurd h (hs ▸ lt_irrefl _)
          · exact absurd h (hd ▸ lt_irrefl _)
          · exact absurd (hpe ▸ h) (lexLt_irrefl _)
          · exact h
      · rw [if_pos (by simp [hp])]
        have hpne : x.cand.providerId ≠ y.cand.providerId := by
          intro he; exact hp (localeCompareQ_eq_zero_iff.mpr he)
        rw [localeCompareQ_nonpos_iff]
        constructor
        · intro h
          exact Or.inr ⟨hs.symm, Or.inr ⟨hd.symm, Or.inl (lexLe_ne_lt h hpne)⟩⟩
        · rintro (h | ⟨_, h | ⟨_, h | ⟨hpe, _⟩⟩⟩)
          · exact absurd h (hs ▸ lt_irrefl _)
          · exact absurd h (hd ▸ lt_irrefl _)
          · exact lexLt_le h
          · exact absurd hpe hpne
    · rw [if_pos (by simp [hd])]
      rw [sub_nonpos]
      constructor
      · intro h
        exact Or.inr ⟨hs.symm, Or.inl (lt_of_le_of_ne h hd)⟩
      · rintro (h | ⟨_, h | ⟨hde, _⟩⟩)
        · exact absurd h (hs ▸ lt_irrefl _)
        · exact le_of_lt h
        · exact absurd hde.symm hd
  · rw [if_pos (by simp [hs])]
    rw [sub_nonpos]
    constructor
    · intro h
      exact Or.inl (lt_of_le_of_ne h hs)
    · rintro (h | ⟨hse, _⟩)
      · exact le_of_lt h
      · exact absurd hse.symm hs

/-! ## Lemmas: sorting -/

theorem jsSort_perm (cmp : α → α → ℚ) (l : List α) : (jsSort cmp l).Perm l :=
  List.perm_insertionSort _ l

theorem jsSortRel_cmpScored_total (a b : ScoredSubtitleResult) :
    jsSortRel cmpScored a b ∨ jsSortRel cmpScored b a := by
  rcases specKeyLe_total (scoredKey a) (scoredKey b) with h | h
  · exact Or.inl ((jsSortRel_cmpScored_iff a b).mpr h)
  · exact Or.inr ((jsSortRel_cmpScored_iff b a).mpr h)

theorem jsSortRel_cmpScored_trans {a b c : ScoredSubtitleResult}
    (h1 : jsSortRel cmpScored a b) (h2 : jsSortRel cmpScored b c) :
    jsSortRel cmpScored a c :=
  (jsSortRel_cmpScored_iff a c).mpr
    (specKeyLe_trans ((jsSortRel_cmpScored_iff a b).mp h1)
      ((jsSortRel_cmpScored_iff b c).mp h2))

theorem jsSort_sorted_cmpScored (l : List ScoredSubtitleResult) :
    (jsSort cmpScored l).Pairwise specScoredOrder := by
  haveI : IsTotal ScoredSubtitleResult (jsSortRel cmpScored) :=
    ⟨jsSortRel_cmpScored_total⟩
  haveI : IsTrans ScoredSubtitleResult (jsSortRel cmpScored) :=
    ⟨fun _ _ _ => jsSortRel_cmpScored_trans⟩
  have h := List.sorted_insertionSort (jsSortRel cmpScored) l
  exact h.imp fun hab => (jsSortRel_cmpScored_iff _ _).mp hab

theorem jsSort_map_scoredKey_eq {l₁ l₂ : List ScoredSubtitleResult}
    (h : l₁.Perm l₂) :
    (jsSort cmpScored l₁).map scoredKey = (jsSort cmpScored l₂).map scoredKey := by
  refine @List.eq_of_perm_of_sorted _ specKeyLe
      ⟨fun _ _ h1 h2 => specKeyLe_antisymm h1 h2⟩ _ _
      ((((jsSort_perm cmpScored l₁).trans h).trans
        (jsSort_perm cmpScored l₂).symm).map scoredKey) ?_ ?_
  · exact List.pairwise_map.mpr (jsSort_sorted_cmpScored l₁)
  · exact List.pairwise_map.mpr (jsSort_sorted_cmpScored l₂)

theorem assignRanks_map_proj_congr :
    ∀ (n : ℕ) (xs ys : List ScoredSubtitleResult),
      xs.map (fun x => (x.cand.id, x.score)) = ys.map (fun x => (x.cand.id, x.score)) →
      (assignRanks n xs).map (fun r => (r.cand.id, r.score, r.rank)) =
        (assignRanks n ys).map (fun r => (r.cand.id, r.score, r.rank))
  | _, [], [] => fun _ => rfl
  | _, [], _ :: _ => by intro h; simp at h
  | _, _ :: _, [] => by intro h; simp at h
  | n, x :: xs, y :: ys => by
    intro h
    simp only [List.map_cons, List.cons.injEq, Prod.mk.injEq] at h
    obtain ⟨⟨h1, h2⟩, h3⟩ := h
    simp only [assignRanks, List.map_cons, List.cons.injEq, Prod.mk.injEq]
    exact ⟨⟨h1, h2, trivial⟩, assignRanks_map_proj_congr (n + 1) xs ys h3⟩

theorem assignRanks_map_eraseRank :
    ∀ (n : ℕ) (xs : List ScoredSubtitleResult),
      (assignRanks n xs).map eraseRank = xs
  | _, [] => rfl
  | n, x :: xs => by
    simp only [assignRanks, List.map_cons, eraseRank]
    rw [assignRanks_map_eraseRank (n + 1) xs]

theorem assignRanks_map_rank :
    ∀ (n : ℕ) (xs : List ScoredSubtitleResult),
      (assignRanks n xs).map (fun r => r.rank) = List.range' n xs.length
  | _, [] => rfl
  | n, x :: xs => by
    simp only [assignRanks, List.map_cons, List.length_cons, List.range'_succ]
    rw [assignRanks_map_rank (n + 1) xs]

theorem assignRanks_length :
    ∀ (n : ℕ) (xs : List ScoredSubtitleResult),
      (assignRanks n xs).length = xs.length
  | _, [] => rfl
  | n, _ :: xs => by
    simp only [assignRanks, List.length_cons]
    rw [assignRanks_length (n + 1) xs]

theorem assignRanks_mem :
    ∀ {n : ℕ} {xs : List ScoredSubtitleResult} {r : RankedSubtitleResult},
      r ∈ assignRanks n xs →
      ∃ x ∈ xs, r.cand = x.cand ∧ r.score = x.score ∧ r.reasons = x.reasons ∧
        n ≤ r.rank ∧ r.rank < n + xs.length := by
  intro n xs
  induction xs generalizing n with
  | nil => intro r h; simp [assignRanks] at h
  | cons x xs ih =>
    intro r h
    simp only [assignRanks, List.mem_cons] at h
    rcases h with h | h
    · subst h
      exact ⟨x, List.mem_cons_self x xs, rfl, rfl, rfl, le_refl n,
        by simp [List.length_cons]⟩
    · obtain ⟨y, hy, h1, h2, h3, h4, h5⟩ := ih h
      exact ⟨y, List.mem_cons_of_mem x hy, h1, h2, h3, by omega,
        by simp [List.length_cons]; omega⟩

theorem scoreSubtitleCandidate_cand (F : FloatModel)
    (req : NormalizedSubtitleRequest) (c : ProviderSubtitleResult) :
    (scoreSubtitleCandidate F req c).cand = c := by
  unfold scoreSubtitleCandidate
  repeat' split
  all_goals rfl

/-! ## Claim theorems: ranking -/

/-- C1: for every float model, normalized request, candidate list, and
limit, ranking any permutation of the candidate list (in particular its
reversal) produces identical results: the same ordered list of candidate
ids, the same scores, and the same 1-based ranks. -/
theorem rank_deterministic_under_permutation (F : FloatModel)
    (req : NormalizedSubtitleRequest)
    (candidates candidates' : List ProviderSubtitleResult) (limit : ℕ)
    (hperm : candidates'.Perm candidates) :
    (rankSubtitleCandidates F req candidates' limit).map
        (fun r => (r.cand.id, r.score, r.rank)) =
      (rankSubtitleCandidates F req candidates limit).map
        (fun r => (r.cand.id, r.score, r.rank)) := by
  have hkeys := jsSort_map_scoredKey_eq (hperm.map (scoreSubtitleCandidate F req))
  simp only [rankSubtitleCandidates]
  apply assignRanks_map_proj_congr
  have hid : ∀ s : List ScoredSubtitleResult,
      s.map (fun x => (x.cand.id, x.score)) =
        (s.map scoredKey).map (fun k => (k.2.2.2, k.1)) := by
    intro s
    rw [List.map_map]
    rfl
  rw [List.map_take, List.map_take, hid, hid, hkeys]

/-- C5: the ranked output is the scored candidates in the order given by
strictly descending score, ties broken by descending download count, then
catalog id ascending lexicographically, then candidate id ascending
lexicographically; the list is truncated to the limit, and ranks 1, 2, ...
are assigned after truncation. -/
theorem rank_order_truncation_spec (F : FloatModel)
    (req : NormalizedSubtitleRequest)
    (candidates : List ProviderSubtitleResult) (limit : ℕ) :
    (rankSubtitleCandidates F req candidates limit).length = min limit candidates.length ∧
    (rankSubtitleCandidates F req candidates limit).map (fun r => r.rank) =
      List.range' 1 (rankSubtitleCandidates F req candidates limit).length ∧
    ∃ rest,
      ((rankSubtitleCandidates F req candidates limit).map eraseRank ++ rest).Perm
        (candidates.map (scoreSubtitleCandidate F req)) ∧
      List.Pairwise specScoredOrder
        ((rankSubtitleCandidates F req candidates limit).map eraseRank ++ rest) := by
  have hlen : (jsSort cmpScored (candidates.map (scoreSubtitleCandidate F req))).length =
      candidates.length := by
    rw [(jsSort_perm cmpScored _).length_eq, List.length_map]
  refine ⟨?_, ?_, ?_⟩
  · simp only [rankSubtitleCandidates]
    rw [assignRanks_length, List.length_take, hlen]
  · simp only [rankSubtitleCandidates]
    rw [assignRanks_map_rank, assignRanks_length]
  · refine ⟨(jsSort cmpScored (candidates.map (scoreSubtitleCandidate F req))).drop limit,
      ?_, ?_⟩
    · simp only [rankSubtitleCandidates]
      rw [assignRanks_map_eraseRank, List.take_append_drop]
      exact jsSort_perm cmpScored _
    · simp only [rankSubtitleCandidates]
      rw [assignRanks_map_eraseRank, List.take_append_drop]
      exact jsSort_sorted_cmpScored _

/-- C10: ranking does not disturb its input: the candidates array after
the call holds the same records in the same order (the in-place sort is
applied to the mapped copy), and every returned ranked record consists of
a copy of some input candidate's fields extended with that candidate's
score, reasons, and an in-range rank. -/
theorem rank_no_mutation_copy_semantics (F : FloatModel)
    (req : NormalizedSubtitleRequest)
    (candidates : List ProviderSubtitleResult) (limit : ℕ) :
    (∀ r ∈ rankSubtitleCandidates F req candidates limit,
        ∃ c ∈ candidates, r.cand = c ∧
          r.score = (scoreSubtitleCandidate F req c).score ∧
          r.reasons = (scoreSubtitleCandidate F req c).reasons ∧
          1 ≤ r.rank ∧ r.rank ≤ min limit candidates.length) ∧
      (rankSubtitleCandidatesEffect F req candidates limit).2 = candidates := by
  have hlen : (jsSort cmpScored (candidates.map (scoreSubtitleCandidate F req))).length =
      candidates.length := by
    rw [(jsSort_perm cmpScored _).length_eq, List.length_map]
  constructor
  · intro r hr
    simp only [rankSubtitleCandidates] at hr
    obtain ⟨x, hx, h1, h2, h3, h4, h5⟩ := assignRanks_mem hr
    have hxs : x ∈ jsSort cmpScored (candidates.map (scoreSubtitleCandidate F req)) :=
      List.mem_of_mem_take hx
    have hxm : x ∈ candidates.map (scoreSubtitleCandidate F req) :=
      ((jsSort_perm cmpScored _).mem_iff).mp hxs
    obtain ⟨c, hc, hcx⟩ := List.mem_map.mp hxm
    refine ⟨c, hc, ?_, ?_, ?_, h4, ?_⟩
    · rw [h1, ← hcx, scoreSubtitleCandidate_cand]
    · rw [h2, ← hcx]
    · rw [h3, ← hcx]
    · rw [List.length_take, hlen] at h5
      omega
  · rfl

/-! ## Lemmas: language normalization and the fingerprint -/

theorem jsSetAdd_mem {s : List String} {x y : String} :
    y ∈ jsSetAdd s x ↔ y ∈ s ∨ y = x := by
  unfold jsSetAdd
  split_ifs with h
  · constructor
    · exact Or.inl
    · rintro (hy | rfl)
      · exact hy
      · exact h
  · simp

theorem jsSetAdd_nodup {s : List String} {x : String} (h : s.Nodup) :
    (jsSetAdd s x).Nodup := by
  unfold jsSetAdd
  split_ifs with hx
  · exact h
  · simp [List.nodup_append, h, hx]

theorem normalizeLanguages_fold_nodup :
    ∀ (values acc : List String), acc.Nodup →
      (values.foldl
        (fun deduped value =>
          let normalized := normalizeLanguage value
          if 0 < normalized.data.length then jsSetAdd deduped normalized
          else deduped) acc).Nodup := by
  intro values
  induction values with
  | nil => intro acc h; exact h
  | cons v vs ih =>
    intro acc h
    simp only [List.foldl_cons]
    apply ih
    split_ifs with hc
    · exact jsSetAdd_nodup h
    · exact h

theorem normalizeLanguages_fold_mem :
    ∀ (values acc : List String) (x : String),
      x ∈ values.foldl
        (fun deduped value =>
          let normalized := normalizeLanguage value
          if 0 < normalized.data.length then jsSetAdd deduped normalized
          else deduped) acc ↔
      x ∈ acc ∨ ∃ v ∈ values, normalizeLanguage v = x ∧ 0 < x.data.length := by
  intro values
  induction values with
  | nil => intro acc x; simp
  | cons v vs ih =>
    intro acc x
    simp only [List.foldl_cons, ih, List.mem_cons]
    split_ifs with hc
    · rw [jsSetAdd_mem]
      constructor
      · rintro ((hx | rfl) | hx)
        · exact Or.inl hx
        · exact Or.inr ⟨v, Or.inl rfl, rfl, hc⟩
        · obtain ⟨w, hw, hwx, hlen⟩ := hx
          exact Or.inr ⟨w, Or.inr hw, hwx, hlen⟩
      · rintro (hx | ⟨w, (rfl | hw), hwx, hlen⟩)
        · exact Or.inl (Or.inl hx)
        · exact Or.inl (Or.inr hwx.symm)
        · exact Or.inr ⟨w, hw, hwx, hlen⟩
    · constructor
      · rintro (hx | hx)
        · exact Or.inl hx
        · obtain ⟨w, hw, hwx, hlen⟩ := hx
          exact Or.inr ⟨w, Or.inr hw, hwx, hlen⟩
      · rintro (hx | ⟨w, (rfl | hw), hwx, hlen⟩)
        · exact Or.inl hx
        · exact absurd (hwx ▸ hlen) hc
        · exact Or.inr ⟨w, hw, hwx, hlen⟩

theorem normalizeLanguages_nodup (values : List String) :
    (normalizeLanguages values).Nodup :=
  normalizeLanguages_fold_nodup values [] List.nodup_nil

theorem normalizeLanguages_mem (values : List String) (x : String) :
    x ∈ normalizeLanguages values ↔
      ∃ v ∈ values, normalizeLanguage v = x ∧ 0 < x.data.length := by
  rw [normalizeLanguages, normalizeLanguages_fold_mem]
  simp

theorem normalizeLanguages_perm {values values' : List String}
    (h : values'.Perm values) :
    (normalizeLanguages values').Perm (normalizeLanguages values) := by
  apply List.perm_of_nodup_nodup_toFinset_eq (normalizeLanguages_nodup values')
    (normalizeLanguages_nodup values)
  ext a
  simp only [List.mem_toFinset, normalizeLanguages_mem]
  constructor
  · rintro ⟨v, hv, hvx, hlen⟩
    exact ⟨v, h.mem_iff.mp hv, hvx, hlen⟩
  · rintro ⟨v, hv, hvx, hlen⟩
    exact ⟨v, h.mem_iff.mpr hv, hvx, hlen⟩

theorem jsSort_locale_eq_of_perm {l₁ l₂ : List String} (h : l₁.Perm l₂) :
    jsSort localeCompareQ l₁ = jsSort localeCompareQ l₂ := by
  haveI : IsTotal String (jsSortRel localeCompareQ) :=
    ⟨fun a b => by
      rw [jsSortRel, jsSortRel, localeCompareQ_nonpos_iff, localeCompareQ_nonpos_iff]
      exact lexLe_total a b⟩
  haveI : IsTrans String (jsSortRel localeCompareQ) :=
    ⟨fun a b c h1 h2 => by
      rw [jsSortRel, localeCompareQ_nonpos_iff] at h1 h2 ⊢
      exact lexLe_trans h1 h2⟩
  refine @List.eq_of_perm_of_sorted _ (jsSortRel localeCompareQ)
      ⟨fun a b h1 h2 => by
        rw [jsSortRel, localeCompareQ_nonpos_iff] at h1 h2
        exact lexLe_antisymm h1 h2⟩ _ _
      (((jsSort_perm localeCompareQ l₁).trans h).trans
        (jsSort_perm localeCompareQ l₂).symm) ?_ ?_
  · exact List.sorted_insertionSort (jsSortRel localeCompareQ) l₁
  · exact List.sorted_insertionSort (jsSortRel localeCompareQ) l₂

/-- C6: the request fingerprint is invariant under permutation of the
input language list, and it is the `|`-join of the normalized query, the
year, season and episode (rendered as possibly-empty strings), and the
sorted (not preference-ordered) deduplicated canonical language codes
joined by `,`. -/
theorem fingerprint_language_order_invariant (input : SubtitleRequestInput)
    (langs' : List String) (hperm : langs'.Perm (input.languages.getD [])) :
    (normalizeSubtitleRequest { input with languages := some langs' }).fingerprint =
      (normalizeSubtitleRequest input).fingerprint ∧
    (normalizeSubtitleRequest input).fingerprint =
      joinSep "|"
        [(normalizeSubtitleRequest input).normalizedQuery,
         optIntStr input.year, optIntStr input.season, optIntStr input.episode,
         joinSep ","
           (jsSort localeCompareQ
             (normalizeSubtitleRequest input).languagePreferences)] := by
  constructor
  · have hP : (normalizeLanguages langs').Perm
        (normalizeLanguages (input.languages.getD [])) :=
      normalizeLanguages_perm hperm
    have hsort := jsSort_locale_eq_of_perm hP
    simp only [normalizeSubtitleRequest, Option.getD_some]
    rw [hsort]
  · rfl

/-! ## Lemmas: the retry loop -/

theorem mapFetchError_code_retriable (f : TransportFailure) (p : String)
    (u : Url) (t : Nat) :
    ((mapFetchError f p u t).code == CliErrorCode.E_UPSTREAM_NETWORK ||
      (mapFetchError f p u t).code == CliErrorCode.E_UPSTREAM_TIMEOUT) = true := by
  cases f <;> rfl

theorem requestLoop_all_retriable (cfg : UpstreamClientConfig) (url : Url)
    (callerHeaders : HeaderMap) (transport : Nat → FetchOutcome)
    (hall : ∀ n, retriableFailure (transport n)) :
    ∀ (fuel attempt : ℕ) (jar : CookieJar) (log : List IssuedRequest),
      fuel + attempt = cfg.retries + 1 → 1 ≤ fuel →
      (requestLoop cfg url callerHeaders transport fuel attempt jar log).attemptsMade =
          cfg.retries + 1 ∧
      (requestLoop cfg url callerHeaders transport fuel attempt jar log).outcome =
        .error (failureOf cfg url (transport (cfg.retries + 1))) := by
  intro fuel
  induction fuel with
  | zero => intro attempt jar log _ h1; omega
  | succ fuel ih =>
    intro attempt jar log hsum _
    simp only [requestLoop]
    obtain ⟨r, htr⟩ | ⟨f, htr⟩ :
        (∃ r, transport (attempt + 1) = .resp r) ∨
          (∃ f, transport (attempt + 1) = .fail f) := by
      cases transport (attempt + 1) with
      | resp r => exact Or.inl ⟨r, rfl⟩
      | fail f => exact Or.inr ⟨f, rfl⟩
    · have hfail := hall (attempt + 1)
      rw [htr] at hfail
      obtain ⟨hok, hmem⟩ := hfail
      simp only [htr, hok, Bool.false_eq_true, if_false]
      by_cases hlast : fuel = 0
      · subst hlast
        have hatt : attempt + 1 = cfg.retries + 1 := by omega
        have hcond : (decide (attempt + 1 < cfg.retries + 1) &&
            RETRYABLE_STATUS.contains r.status) = false := by
          simp [hatt]
        rw [hcond]
        simp only [Bool.false_eq_true, if_false]
        refine ⟨hatt, ?_⟩
        rw [← hatt, htr]
        rfl
      · have hlt : attempt + 1 < cfg.retries + 1 := by omega
        have hc : RETRYABLE_STATUS.contains r.status = true :=
          List.elem_eq_true_of_mem hmem
        have hcond : (decide (attempt + 1 < cfg.retries + 1) &&
            RETRYABLE_STATUS.contains r.status) = true := by
          rw [hc]
          simp [hlt]
        rw [hcond]
        simp only [if_true]
        exact ih (attempt + 1) _ _ (by omega) (by omega)
    · simp only [htr]
      by_cases hlast : fuel = 0
      · subst hlast
        have hatt : attempt + 1 = cfg.retries + 1 := by omega
        have hcond : (decide (attempt + 1 < cfg.retries + 1) &&
            ((mapFetchError f cfg.providerId url cfg.timeoutMs).code ==
                CliErrorCode.E_UPSTREAM_NETWORK ||
              (mapFetchError f cfg.providerId url cfg.timeoutMs).code ==
                CliErrorCode.E_UPSTREAM_TIMEOUT)) = false := by
          simp [hatt]
        rw [hcond]
        simp only [Bool.false_eq_true, if_false]
        refine ⟨hatt, ?_⟩
        rw [← hatt, htr]
        rfl
      · have hlt : attempt + 1 < cfg.retries + 1 := by omega
        have hcond : (decide (attempt + 1 < cfg.retries + 1) &&
            ((mapFetchError f cfg.providerId url cfg.timeoutMs).code ==
                CliErrorCode.E_UPSTREAM_NETWORK ||
              (mapFetchError f cfg.providerId url cfg.timeoutMs).code ==
                CliErrorCode.E_UPSTREAM_TIMEOUT)) = true := by
          rw [mapFetchError_code_retriable]
          simp [hlt]
        rw [hcond]
        simp only [if_true]
        exact ih (attempt + 1) _ _ (by omega) (by omega)

/-- C3: when every transport attempt fails retriably (network error,
timeout, or a status in {408, 425, 429, 500, 502, 503, 504}), the client
invokes the transport exactly `retries + 1` times and raises the
classified error of the last attempt; when the first response's status is
a non-retriable failure, the transport is invoked exactly once and the
classified error surfaces immediately. -/
theorem retry_bound_and_nonretriable_immediate (cfg : UpstreamClientConfig)
    (url : Url) (callerHeaders : HeaderMap) (transport : Nat → FetchOutcome)
    (jar : CookieJar) :
    ((∀ n, retriableFailure (transport n)) →
      (request cfg url callerHeaders transport jar).attemptsMade = cfg.retries + 1 ∧
      (request cfg url callerHeaders transport jar).outcome =
        .error (failureOf cfg url (transport (cfg.retries + 1)))) ∧
    (∀ r : HttpResponse, transport 1 = .resp r → respOk r.status = false →
      r.status ∉ RETRYABLE_STATUS →
      (request cfg url callerHeaders transport jar).attemptsMade = 1 ∧
      (request cfg url callerHeaders transport jar).outcome =
        .error (classifyResponseError cfg.providerId url r.status
          (readSnippet r.body))) := by
  constructor
  · intro hall
    exact requestLoop_all_retriable cfg url callerHeaders transport hall
      (cfg.retries + 1) 0 jar [] rfl (by omega)
  · intro r htr hok hmem
    unfold request
    show (requestLoop cfg url callerHeaders transport (cfg.retries + 1) 0 jar []).attemptsMade = 1 ∧ _
    simp only [requestLoop]
    rw [Nat.zero_add]
    simp only [htr, hok, Bool.false_eq_true, if_false]
    have hcond : (decide (1 < cfg.retries + 1) &&
        RETRYABLE_STATUS.contains r.status) = false := by
      have : RETRYABLE_STATUS.contains r.status = false := by
        rw [Bool.eq_false_iff]
        intro hc
        exact hmem (List.mem_of_elem_eq_true hc)
      rw [this, Bool.and_false]
    rw [hcond]
    simp only [Bool.false_eq_true, if_false]
    exact ⟨trivial, trivial⟩

/-- C2: the response classification is first-match-wins exactly as the
specification orders it (429 or a rate-limit body pattern, then 401/403
or an anti-bot body signature, then bad-response); and a client configured
with `retries = 0` that receives HTTP 429 on its only attempt raises an
upstream-bad-response error whose structured details carry classification
rate-limit and status 429. -/
theorem classification_spec_and_429_scenario :
    (∀ (status : Int) (snippet : String),
        classifyResponse status snippet = specClassify status snippet) ∧
    (∀ (cfg : UpstreamClientConfig) (url : Url) (callerHeaders : HeaderMap)
        (body : String) (jar : CookieJar),
        cfg.retries = 0 →
        ∃ e, (request cfg url callerHeaders
            (fun _ => .resp { status := 429, body := body }) jar).outcome =
              .error e ∧
          e.code = .E_UPSTREAM_BAD_RESPONSE ∧
          e.details.classification = some .rateLimit ∧
          e.details.status = some 429) := by
  constructor
  · intro status snippet
    unfold classifyResponse specClassify
    by_cases h1 : status = 429 <;>
      by_cases h2 : rateLimitSnippetTest snippet = true <;>
      by_cases h3 : status = 403 <;>
      by_cases h4 : status = 401 <;>
      by_cases h5 : looksLikeAntiBotChallenge snippet = true <;>
      simp [h1, h2, h3, h4, h5, beq_iff_eq]
  · intro cfg url callerHeaders body jar hret
    refine ⟨classifyResponseError cfg.providerId url 429 (readSnippet body),
      ?_, rfl, ?_, rfl⟩
    · unfold request
      simp only [requestLoop, hret]
      have hro : respOk 429 = false := rfl
      have hcond : (decide (0 + 1 < 0 + 1) &&
          RETRYABLE_STATUS.contains (429 : Int)) = false := by simp
      simp only [hro, Bool.false_eq_true, if_false, hcond]
    · show some (classifyResponse 429 (readSnippet body)) = some .rateLimit
      unfold classifyResponse
      rw [if_pos]
      rfl

/-! ## Lemmas: cookie jar and headers -/

theorem takeWhile_of_all {p : Char → Bool} :
    ∀ {l : List Char}, (∀ c ∈ l, p c = true) → l.takeWhile p = l
  | [], _ => rfl
  | c :: cs, h => by
    rw [List.takeWhile_cons, h c (List.mem_cons_self c cs)]
    simp only [if_true]
    rw [takeWhile_of_all fun d hd => h d (List.mem_cons_of_mem c hd)]

theorem dropWhile_of_none {p : Char → Bool} {l : List Char}
    (h : ∀ c ∈ l, p c = false) : l.dropWhile p = l := by
  cases l with
  | nil => rfl
  | cons c cs =>
    rw [List.dropWhile_cons, h c (List.mem_cons_self c cs)]
    simp

theorem jsTrimL_of_no_ws {l : List Char}
    (h : ∀ c ∈ l, isJsWs c = false) : jsTrimL l = l := by
  unfold jsTrimL
  rw [dropWhile_of_none h]
  rw [dropWhile_of_none fun c hc => h c (List.mem_reverse.mp hc)]
  exact List.reverse_reverse l

theorem eqSignIdx_append :
    ∀ {l : List Char} (rest : List Char), (∀ c ∈ l, (c == '=') = false) →
      eqSignIdx (l ++ '=' :: rest) = some l.length
  | [], rest, _ => by simp [eqSignIdx]
  | c :: cs, rest, h => by
    rw [List.cons_append, eqSignIdx, h c (List.mem_cons_self c cs)]
    simp only [Bool.false_eq_true, if_false]
    rw [eqSignIdx_append rest fun d hd => h d (List.mem_cons_of_mem c hd)]
    simp [List.length_cons]

theorem headerGet_jsMapSet_self :
    ∀ (h : HeaderMap) (n v : String), headerGet (jsMapSet h n v) n = some v
  | [], n, v => by simp [jsMapSet, headerGet, List.lookup]
  | (m, w) :: t, n, v => by
    by_cases hmn : m = n
    · subst hmn
      simp [jsMapSet, headerGet, List.lookup]
    · have h1 : (m == n) = false := by
        simp only [beq_eq_false_iff_ne, ne_eq]
        exact hmn
      have h2 : (n == m) = false := by
        simp only [beq_eq_false_iff_ne, ne_eq]
        exact fun he => hmn he.symm
      simp only [jsMapSet, h1, Bool.false_eq_true, if_false, headerGet,
        List.lookup, h2]
      exact headerGet_jsMapSet_self t n v

theorem headerGet_jsMapSet_ne :
    ∀ (h : HeaderMap) (n v : String) (m : String), n ≠ m →
      headerGet (jsMapSet h n v) m = headerGet h m
  | [], n, v, m, hne => by
    have h1 : (m == n) = false := by
      simp only [beq_eq_false_iff_ne, ne_eq]
      exact fun he => hne he.symm
    simp [jsMapSet, headerGet, List.lookup, h1]
  | (k, w) :: t, n, v, m, hne => by
    by_cases hkn : k = n
    · subst hkn
      have h1 : (m == k) = false := by
        simp only [beq_eq_false_iff_ne, ne_eq]
        exact fun he => hne (he ▸ rfl)
      simp [jsMapSet, headerGet, List.lookup, h1]
    · have h1 : (k == n) = false := by
        simp only [beq_eq_false_iff_ne, ne_eq]
        exact hkn
      cases hb : m == k with
      | true => simp [jsMapSet, h1, headerGet, List.lookup, hb]
      | false =>
        simp only [jsMapSet, h1, Bool.false_eq_true, if_false, headerGet,
          List.lookup, hb]
        exact headerGet_jsMapSet_ne t n v m hne

theorem jsMapSet_mem_self :
    ∀ (jar : CookieJar) (n v : String), (n, v) ∈ jsMapSet jar n v
  | [], n, v => List.mem_singleton.mpr rfl
  | (m, w) :: t, n, v => by
    by_cases hmn : m = n
    · subst hmn
      simp [jsMapSet]
    · simp only [jsMapSet, beq_iff_eq, hmn, if_false]
      exact List.mem_cons_of_mem _ (jsMapSet_mem_self t n v)

theorem jsMapSet_namesOk :
    ∀ (jar : CookieJar) (n v : String), jarNamesOk jar → n.data ≠ [] →
      jarNamesOk (jsMapSet jar n v)
  | [], n, v, _, hn => by
    intro p hp
    rw [jsMapSet, List.mem_singleton] at hp
    rw [hp]
    exact hn
  | (m, w) :: t, n, v, h, hn => by
    intro p hp
    by_cases hmn : m = n
    · rw [jsMapSet, if_pos (by simp [hmn])] at hp
      rcases List.mem_cons.mp hp with heq | hp
      · rw [heq]
        show m.data ≠ []
        rw [hmn]
        exact hn
      · exact h p (List.mem_cons_of_mem _ hp)
    · rw [jsMapSet, if_neg (by simp [hmn])] at hp
      rcases List.mem_cons.mp hp with heq | hp
      · rw [heq]
        exact h (m, w) (List.mem_cons_self _ _)
      · exact jsMapSet_namesOk t n v (fun q hq => h q (List.mem_cons_of_mem _ hq)) hn p hp

theorem jsMapDelete_namesOk {jar : CookieJar} {n : String}
    (h : jarNamesOk jar) : jarNamesOk (jsMapDelete jar n) := by
  intro p hp
  exact h p (List.mem_of_mem_filter hp)

theorem mergeCookie_namesOk {jar : CookieJar} (raw : String)
    (h : jarNamesOk jar) : jarNamesOk (mergeCookie jar raw) := by
  simp only [mergeCookie]
  split
  · exact h
  · split
    · exact h
    · exact h
    · split
      · exact h
      · split
        · exact jsMapDelete_namesOk h
        · rename_i hlen _
          refine jsMapSet_namesOk _ _ _ h ?_
          intro hd
          exact hlen (List.length_eq_zero.mpr hd)

theorem serializeCookies_pos {jar : CookieJar} (hne : jar ≠ [])
    (hwf : jarNamesOk jar) : 0 < (serializeCookies jar).data.length := by
  obtain ⟨⟨n, v⟩, t, rfl⟩ : ∃ p t, jar = p :: t := by
    cases jar with
    | nil => exact absurd rfl hne
    | cons p t => exact ⟨p, t, rfl⟩
  have hn : n.data ≠ [] := hwf (n, v) (List.mem_cons_self _ _)
  have hn' : 0 < n.data.length := List.length_pos.mpr hn
  unfold serializeCookies
  rw [List.map_cons]
  cases ht : t.map (fun p => p.1 ++ "=" ++ p.2) with
  | nil =>
    show 0 < (n ++ "=" ++ v).data.length
    simp [String.data_append]
  | cons s r =>
    show 0 < ((n ++ "=" ++ v) ++ "; " ++ joinSep "; " (s :: r)).data.length
    simp [String.data_append]

theorem buildHeaders_cookie_cross {cfg : UpstreamClientConfig} {url : Url}
    {jar : CookieJar} {ch : HeaderMap} (h : url.origin ≠ cfg.baseOrigin) :
    headerGet (buildHeaders cfg jar url ch) "cookie" = headerGet ch "cookie" := by
  have hb : (url.origin == cfg.baseOrigin) = false := by
    simp only [beq_eq_false_iff_ne, ne_eq]
    exact h
  simp only [buildHeaders, hb, Bool.and_false, Bool.false_eq_true, if_false]
  split
  · exact headerGet_jsMapSet_ne ch "user-agent" cfg.userAgent "cookie" (by decide)
  · rfl

theorem buildHeaders_cookie_same {cfg : UpstreamClientConfig} {url : Url}
    {jar : CookieJar} {ch : HeaderMap} (h : url.origin = cfg.baseOrigin)
    (hne : jar ≠ []) (hwf : jarNamesOk jar) :
    headerGet (buildHeaders cfg jar url ch) "cookie" =
      some (serializeCookies jar) := by
  have hb : (url.origin == cfg.baseOrigin) = true := by
    simp only [beq_iff_eq]
    exact h
  have hpos := serializeCookies_pos hne hwf
  simp only [buildHeaders, hb, Bool.and_true, decide_eq_true hpos, if_true]
  split <;> exact headerGet_jsMapSet_self _ "cookie" (serializeCookies jar)

theorem mergeResponseCookies_cross {cfg : UpstreamClientConfig} {url : Url}
    (jar : CookieJar) (sc : List String) (h : url.origin ≠ cfg.baseOrigin) :
    mergeResponseCookies cfg url jar sc = jar := by
  rw [mergeResponseCookies, if_pos h]

theorem mergeResponseCookies_namesOk {cfg : UpstreamClientConfig} {url : Url}
    {jar : CookieJar} (sc : List String) (h : jarNamesOk jar) :
    jarNamesOk (mergeResponseCookies cfg url jar sc) := by
  rw [mergeResponseCookies]
  split
  · exact h
  · clear * - h
    induction sc generalizing jar with
    | nil => exact h
    | cons raw rest ih =>
      rw [List.foldl_cons]
      exact ih (mergeCookie_namesOk raw h)

theorem requestLoop_jar_namesOk (cfg : UpstreamClientConfig) (url : Url)
    (ch : HeaderMap) (t : Nat → FetchOutcome) :
    ∀ (fuel attempt : ℕ) (jar : CookieJar) (log : List IssuedRequest),
      jarNamesOk jar →
      jarNamesOk (requestLoop cfg url ch t fuel attempt jar log).jar := by
  intro fuel
  induction fuel with
  | zero => intro attempt jar log h; exact h
  | succ fuel ih =>
    intro attempt jar log h
    simp only [requestLoop]
    obtain ⟨r, htr⟩ | ⟨f, htr⟩ :
        (∃ r, t (attempt + 1) = .resp r) ∨ (∃ f, t (attempt + 1) = .fail f) := by
      cases t (attempt + 1) with
      | resp r => exact Or.inl ⟨r, rfl⟩
      | fail f => exact Or.inr ⟨f, rfl⟩
    · simp only [htr]
      split
      · exact mergeResponseCookies_namesOk r.setCookies h
      · split
        · exact ih (attempt + 1) _ _ (mergeResponseCookies_namesOk r.setCookies h)
        · exact mergeResponseCookies_namesOk r.setCookies h
    · simp only [htr]
      split
      · exact ih (attempt + 1) _ _ h
      · exact h

theorem requestLoop_jar_cross (cfg : UpstreamClientConfig) (url : Url)
    (ch : HeaderMap) (t : Nat → FetchOutcome) (h : url.origin ≠ cfg.baseOrigin) :
    ∀ (fuel attempt : ℕ) (jar : CookieJar) (log : List IssuedRequest),
      (requestLoop cfg url ch t fuel attempt jar log).jar = jar := by
  intro fuel
  induction fuel with
  | zero => intro attempt jar log; rfl
  | succ fuel ih =>
    intro attempt jar log
    simp only [requestLoop]
    obtain ⟨r, htr⟩ | ⟨f, htr⟩ :
        (∃ r, t (attempt + 1) = .resp r) ∨ (∃ f, t (attempt + 1) = .fail f) := by
      cases t (attempt + 1) with
      | resp r => exact Or.inl ⟨r, rfl⟩
      | fail f => exact Or.inr ⟨f, rfl⟩
    · simp only [htr, mergeResponseCookies_cross _ _ h]
      split
      · rfl
      · split
        · exact ih (attempt + 1) _ _
        · rfl
    · simp only [htr]
      split
      · exact ih (attempt + 1) _ _
      · rfl

theorem requestLoop_issued_ok (cfg : UpstreamClientConfig) (url : Url)
    (ch : HeaderMap) (t : Nat → FetchOutcome) :
    ∀ (fuel attempt : ℕ) (jar : CookieJar) (log : List IssuedRequest),
      jarNamesOk jar →
      (∀ i ∈ log, i.url = url ∧ i.callerHeaders = ch ∧
        i.headers = buildHeaders cfg i.jarAtSend url ch ∧ jarNamesOk i.jarAtSend) →
      ∀ i ∈ (requestLoop cfg url ch t fuel attempt jar log).issued,
        i.url = url ∧ i.callerHeaders = ch ∧
        i.headers = buildHeaders cfg i.jarAtSend url ch ∧ jarNamesOk i.jarAtSend := by
  intro fuel
  induction fuel with
  | zero => intro attempt jar log _ hlog i hi; exact hlog i hi
  | succ fuel ih =>
    intro attempt jar log hjar hlog
    have hlog' : ∀ i ∈ log ++ [⟨url, buildHeaders cfg jar url ch, ch, jar⟩],
        i.url = url ∧ i.callerHeaders = ch ∧
        i.headers = buildHeaders cfg i.jarAtSend url ch ∧ jarNamesOk i.jarAtSend := by
      intro i hi
      rcases List.mem_append.mp hi with hi | hi
      · exact hlog i hi
      · rw [List.mem_singleton] at hi
        rw [hi]
        exact ⟨rfl, rfl, rfl, hjar⟩
    simp only [requestLoop]
    obtain ⟨r, htr⟩ | ⟨f, htr⟩ :
        (∃ r, t (attempt + 1) = .resp r) ∨ (∃ f, t (attempt + 1) = .fail f) := by
      cases t (attempt + 1) with
      | resp r => exact Or.inl ⟨r, rfl⟩
      | fail f => exact Or.inr ⟨f, rfl⟩
    · simp only [htr]
      split
      · exact hlog'
      · split
        · exact ih (attempt + 1) _ _
            (mergeResponseCookies_namesOk r.setCookies hjar) hlog'
        · exact hlog'
    · simp only [htr]
      split
      · exact ih (attempt + 1) _ _ hjar hlog'
      · exact hlog'

theorem request_jar_namesOk (cfg : UpstreamClientConfig) (c : ClientCall)
    (jar : CookieJar) (h : jarNamesOk jar) :
    jarNamesOk (request cfg c.url c.headers c.transport jar).jar :=
  requestLoop_jar_namesOk cfg c.url c.headers c.transport _ 0 jar [] h

theorem runRequests_issued_ok (cfg : UpstreamClientConfig) :
    ∀ (calls : List ClientCall) (jar : CookieJar), jarNamesOk jar →
      ∀ i ∈ (runRequests cfg jar calls).2,
        i.headers = buildHeaders cfg i.jarAtSend i.url i.callerHeaders ∧
        jarNamesOk i.jarAtSend
  | [], jar, _ => by intro i hi; simp [runRequests] at hi
  | c :: cs, jar, hjar => by
    intro i hi
    simp only [runRequests] at hi
    rcases List.mem_append.mp hi with hi | hi
    · obtain ⟨h1, h2, h3, h4⟩ :=
        requestLoop_issued_ok cfg c.url c.headers c.transport
          (cfg.retries + 1) 0 jar [] hjar (by intro j hj; simp at hj) i hi
      refine ⟨?_, h4⟩
      rw [h1, h2]
      exact h3
    · exact runRequests_issued_ok cfg cs _
        (request_jar_namesOk cfg c jar hjar) i hi

theorem mergeCookie_wellformed (jar : CookieJar) (n v : String)
    (hn : n.data ≠ []) (hnc : ∀ c ∈ n.data, isJsWs c = false ∧ (c == '=') = false ∧ (c == ';') = false)
    (hv : v.data ≠ []) (hvc : ∀ c ∈ v.data, isJsWs c = false ∧ (c == ';') = false)
    (hvd : v ≠ "deleted") :
    mergeCookie jar (n ++ "=" ++ v) = jsMapSet jar n v := by
  have hdata : (n ++ "=" ++ v).data = n.data ++ '=' :: v.data := by
    simp [String.data_append]
  have hseg : (n ++ "=" ++ v).data.takeWhile (fun c => !(c == ';')) =
      n.data ++ '=' :: v.data := by
    rw [hdata]
    apply takeWhile_of_all
    intro c hc
    rcases List.mem_append.mp hc with hc | hc
    · rw [(hnc c hc).2.2]
      rfl
    · rcases List.mem_cons.mp hc with rfl | hc
      · rfl
      · rw [(hvc c hc).2]
        rfl
  have htrim : jsTrimL (n.data ++ '=' :: v.data) = n.data ++ '=' :: v.data := by
    apply jsTrimL_of_no_ws
    intro c hc
    rcases List.mem_append.mp hc with hc | hc
    · exact (hnc c hc).1
    · rcases List.mem_cons.mp hc with rfl | hc
      · rfl
      · exact (hvc c hc).1
  have hidx : eqSignIdx (n.data ++ '=' :: v.data) = some n.data.length :=
    eqSignIdx_append v.data fun c hc => (hnc c hc).2.1
  obtain ⟨k, hk⟩ : ∃ k, n.data.length = k + 1 := by
    cases hl : n.data with
    | nil => exact absurd hl hn
    | cons a l => exact ⟨l.length, by simp⟩
  have htake : (n.data ++ '=' :: v.data).take (k + 1) = n.data := by
    rw [← hk]
    exact List.take_left n.data _
  have hdrop : (n.data ++ '=' :: v.data).drop (k + 2) = v.data := by
    have : n.data ++ '=' :: v.data = (n.data ++ ['=']) ++ v.data := by
      simp
    rw [this, (by simp [hk] : k + 2 = (n.data ++ ['=']).length)]
    exact List.drop_left _ v.data
  have htrimn : jsTrimL n.data = n.data :=
    jsTrimL_of_no_ws fun c hc => (hnc c hc).1
  have htrimv : jsTrimL v.data = v.data :=
    jsTrimL_of_no_ws fun c hc => (hvc c hc).1
  simp only [mergeCookie, hseg, htrim, hidx, hk]
  rw [if_neg (by simp [← hk, List.length_append])]
  simp only [htake, hdrop, htrimn, htrimv]
  rw [if_neg (by exact fun h0 => hn (List.length_eq_zero.mp h0))]
  rw [if_neg ?hcond]
  case hcond =>
    simp only [Bool.or_eq_true, decide_eq_true_eq, beq_iff_eq]
    rintro (hc | hc)
    · exact hv (List.length_eq_zero.mp hc)
    · apply hvd
      calc v = ({ data := v.data } : String) := rfl
        _ = "deleted" := hc

/-- C7: cookie discipline across a session on one client instance (the
jar starts empty at construction).  (1) Every issued request targeting the
base origin with a non-empty jar carries a `cookie` header equal to the
serialized jar, which is the `"; "`-join of the `name=value` entry
strings, so every cookie stored in the jar at send time appears in it;
(2) a request to a different origin never carries a cookie header built
from the jar (its `cookie` header is whatever the caller supplied);
(3) a response to a cross-origin request never modifies the jar; and
(4) a same-origin response's well-formed `Set-Cookie` entry `n=v` stores
`(n, v)` in the jar by map-set. -/
theorem cookie_jar_origin_discipline (cfg : UpstreamClientConfig) :
    (∀ (calls : List ClientCall) (i : IssuedRequest),
        i ∈ (runRequests cfg [] calls).2 →
        (i.url.origin = cfg.baseOrigin → i.jarAtSend ≠ [] →
          headerGet i.headers "cookie" = some (serializeCookies i.jarAtSend) ∧
          serializeCookies i.jarAtSend =
            joinSep "; " (i.jarAtSend.map fun p => p.1 ++ "=" ++ p.2) ∧
          ∀ nv ∈ i.jarAtSend,
            (nv.1 ++ "=" ++ nv.2) ∈ i.jarAtSend.map fun p => p.1 ++ "=" ++ p.2) ∧
        (i.url.origin ≠ cfg.baseOrigin →
          headerGet i.headers "cookie" = headerGet i.callerHeaders "cookie")) ∧
    (∀ (url : Url) (ch : HeaderMap) (t : Nat → FetchOutcome) (jar : CookieJar),
        url.origin ≠ cfg.baseOrigin →
        (request cfg url ch t jar).jar = jar) ∧
    (∀ (url : Url) (jar : CookieJar) (n v : String),
        url.origin = cfg.baseOrigin →
        n.data ≠ [] →
        (∀ c ∈ n.data, isJsWs c = false ∧ (c == '=') = false ∧ (c == ';') = false) →
        v.data ≠ [] →
        (∀ c ∈ v.data, isJsWs c = false ∧ (c == ';') = false) →
        v ≠ "deleted" →
        mergeResponseCookies cfg url jar [n ++ "=" ++ v] = jsMapSet jar n v ∧
          (n, v) ∈ mergeResponseCookies cfg url jar [n ++ "=" ++ v]) := by
  refine ⟨?_, ?_, ?_⟩
  · intro calls i hi
    obtain ⟨hhead, hwf⟩ := runRequests_issued_ok cfg calls [] (by intro p hp; cases hp) i hi
    constructor
    · intro horig hne
      refine ⟨?_, rfl, ?_⟩
      · rw [hhead]
        exact buildHeaders_cookie_same horig hne hwf
      · intro nv hnv
        exact List.mem_map_of_mem _ hnv
    · intro horig
      rw [hhead]
      exact buildHeaders_cookie_cross horig
  · intro url ch t jar h
    exact requestLoop_jar_cross cfg url ch t h (cfg.retries + 1) 0 jar []
  · intro url jar n v horig hn hnc hv hvc hvd
    have hm : mergeResponseCookies cfg url jar [n ++ "=" ++ v] = jsMapSet jar n v := by
      rw [mergeResponseCookies, if_neg (by simp [horig]), List.foldl_cons,
        List.foldl_nil]
      exact mergeCookie_wellformed jar n v hn hnc hv hvc hvd
    refine ⟨hm, ?_⟩
    rw [hm]
    exact jsMapSet_mem_self jar n v

/-! ## Lemmas: the search parser's deduplication map -/

theorem lookup_jsMapSet_self {α : Type} :
    ∀ (m : List (String × α)) (k : String) (v : α),
      List.lookup k (jsMapSet m k v) = some v
  | [], k, v => by simp [jsMapSet, List.lookup]
  | (m0, w) :: t, k, v => by
    by_cases hmk : m0 = k
    · subst hmk
      simp [jsMapSet, List.lookup]
    · have h1 : (m0 == k) = false := by
        simp only [beq_eq_false_iff_ne, ne_eq]
        exact hmk
      have h2 : (k == m0) = false := by
        simp only [beq_eq_false_iff_ne, ne_eq]
        exact fun he => hmk he.symm
      simp only [jsMapSet, h1, Bool.false_eq_true, if_false, List.lookup, h2]
      exact lookup_jsMapSet_self t k v

theorem lookup_jsMapSet_ne {α : Type} :
    ∀ (m : List (String × α)) (k' k : String) (v : α), k' ≠ k →
      List.lookup k' (jsMapSet m k v) = List.lookup k' m
  | [], k', k, v, hne => by
    have h1 : (k' == k) = false := by
      simp only [beq_eq_false_iff_ne, ne_eq]
      exact hne
    simp [jsMapSet, List.lookup, h1]
  | (m0, w) :: t, k', k, v, hne => by
    by_cases hmk : m0 = k
    · subst hmk
      have h1 : (k' == m0) = false := by
        simp only [beq_eq_false_iff_ne, ne_eq]
        exact hne
      simp [jsMapSet, List.lookup, h1]
    · have h1 : (m0 == k) = false := by
        simp only [beq_eq_false_iff_ne, ne_eq]
        exact hmk
      cases hb : k' == m0 with
      | true => simp [jsMapSet, h1, List.lookup, hb]
      | false =>
        simp only [jsMapSet, h1, Bool.false_eq_true, if_false, List.lookup, hb]
        exact lookup_jsMapSet_ne t k' k v hne

theorem jsMapSet_keys_of_mem {α : Type} :
    ∀ (m : List (String × α)) (k : String) (v : α), k ∈ m.map (fun p => p.1) →
      (jsMapSet m k v).map (fun p => p.1) = m.map (fun p => p.1)
  | [], k, v, h => by simp at h
  | (m0, w) :: t, k, v, h => by
    by_cases hmk : m0 = k
    · subst hmk
      simp [jsMapSet]
    · have h1 : (m0 == k) = false := by
        simp only [beq_eq_false_iff_ne, ne_eq]
        exact hmk
      simp only [List.map_cons, List.mem_cons] at h
      rcases h with h | h
      · exact absurd h.symm hmk
      · simp only [jsMapSet, h1, Bool.false_eq_true, if_false, List.map_cons]
        rw [jsMapSet_keys_of_mem t k v h]

theorem jsMapSet_keys_of_not_mem {α : Type} :
    ∀ (m : List (String × α)) (k : String) (v : α), k ∉ m.map (fun p => p.1) →
      (jsMapSet m k v).map (fun p => p.1) = m.map (fun p => p.1) ++ [k]
  | [], k, v, _ => by simp [jsMapSet]
  | (m0, w) :: t, k, v, h => by
    simp only [List.map_cons, List.mem_cons] at h
    push_neg at h
    have h1 : (m0 == k) = false := by
      simp only [beq_eq_false_iff_ne, ne_eq]
      exact fun he => h.1 he.symm
    simp only [jsMapSet, h1, Bool.false_eq_true, if_false, List.map_cons]
    rw [jsMapSet_keys_of_not_mem t k v h.2]
    rfl

theorem jsMapSet_mem_sub {α : Type} :
    ∀ {m : List (String × α)} {k : String} {v : α} {p : String × α},
      p ∈ jsMapSet m k v → p ∈ m ∨ p = (k, v)
  | [], k, v, p, h => by
    rw [jsMapSet, List.mem_singleton] at h
    exact Or.inr h
  | (m0, w) :: t, k, v, p, h => by
    by_cases hmk : m0 = k
    · subst hmk
      rw [jsMapSet, if_pos (by simp)] at h
      rcases List.mem_cons.mp h with h | h
      · exact Or.inr (by rw [h])
      · exact Or.inl (List.mem_cons_of_mem _ h)
    · rw [jsMapSet, if_neg (by simp [hmk])] at h
      rcases List.mem_cons.mp h with h | h
      · exact Or.inl (by rw [h]; exact List.mem_cons_self _ _)
      · rcases jsMapSet_mem_sub h with h | h
        · exact Or.inl (List.mem_cons_of_mem _ h)
        · exact Or.inr h

theorem dedupFirstAux_congr :
    ∀ (l : List String) (s₁ s₂ : List String), (∀ x, x ∈ s₁ ↔ x ∈ s₂) →
      dedupFirstAux s₁ l = dedupFirstAux s₂ l
  | [], _, _, _ => rfl
  | a :: l, s₁, s₂, h => by
    simp only [dedupFirstAux]
    by_cases ha : a ∈ s₁
    · rw [if_pos ha, if_pos ((h a).mp ha)]
      exact dedupFirstAux_congr l s₁ s₂ h
    · rw [if_neg ha, if_neg fun hc => ha ((h a).mpr hc)]
      rw [dedupFirstAux_congr l (a :: s₁) (a :: s₂)
        (by intro x; simp [h x])]

theorem dedupFirstAux_nodup :
    ∀ (l seen : List String),
      (dedupFirstAux seen l).Nodup ∧ ∀ x ∈ dedupFirstAux seen l, x ∉ seen
  | [], seen => ⟨List.nodup_nil, by intro x hx; cases hx⟩
  | a :: l, seen => by
    simp only [dedupFirstAux]
    by_cases ha : a ∈ seen
    · rw [if_pos ha]
      exact dedupFirstAux_nodup l seen
    · rw [if_neg ha]
      obtain ⟨hnd, hns⟩ := dedupFirstAux_nodup l (a :: seen)
      refine ⟨List.nodup_cons.mpr ⟨?_, hnd⟩, ?_⟩
      · intro hc
        exact hns a hc (List.mem_cons_self a seen)
      · intro x hx
        rcases List.mem_cons.mp hx with rfl | hx
        · exact ha
        · exact fun hc => hns x hx (List.mem_cons_of_mem a hc)

theorem foldSet_keys {α : Type} :
    ∀ (es : List (String × α)) (acc : List (String × α)),
      ((es.foldl (fun a p => jsMapSet a p.1 p.2) acc).map fun p => p.1) =
        (acc.map fun p => p.1) ++
          dedupFirstAux (acc.map fun p => p.1) (es.map fun p => p.1)
  | [], acc => by simp [dedupFirstAux]
  | (k, v) :: t, acc => by
    simp only [List.foldl_cons, List.map_cons, dedupFirstAux]
    by_cases hk : k ∈ acc.map fun p => p.1
    · rw [if_pos hk, foldSet_keys t (jsMapSet acc k v),
        jsMapSet_keys_of_mem acc k v hk]
    · rw [if_neg hk, foldSet_keys t (jsMapSet acc k v),
        jsMapSet_keys_of_not_mem acc k v hk]
      rw [dedupFirstAux_congr (t.map fun p => p.1)
        ((acc.map fun p => p.1) ++ [k]) (k :: acc.map fun p => p.1)
        (by intro x; simp [or_comm])]
      simp

theorem foldSet_lookup {α : Type} :
    ∀ (es : List (String × α)) (acc : List (String × α)) (k : String),
      List.lookup k (es.foldl (fun a p => jsMapSet a p.1 p.2) acc) =
        (match es.reverse.find? (fun e => e.1 == k) with
          | some e => some e.2
          | none => List.lookup k acc)
  | [], acc, k => by simp
  | (k0, v0) :: t, acc, k => by
    simp only [List.foldl_cons, List.reverse_cons]
    rw [foldSet_lookup t (jsMapSet acc k0 v0) k, List.find?_append]
    cases hf : t.reverse.find? (fun e => e.1 == k) with
    | some e => simp
    | none =>
      simp only [Option.none_orElse]
      by_cases hk : k0 = k
      · subst hk
        rw [(by simp [List.find?] :
          ([((k0 : String), v0)].find? fun e => e.1 == k0) = some (k0, v0))]
        exact lookup_jsMapSet_self acc k0 v0
      · have hb : (k0 == k) = false := beq_eq_false_iff_ne.mpr hk
        rw [(by simp [List.find?, hb] :
          ([((k0 : String), v0)].find? fun e => e.1 == k) = none)]
        exact lookup_jsMapSet_ne acc k k0 v0 fun he => hk he.symm

theorem lookup_of_mem_nodup {α : Type} :
    ∀ {m : List (String × α)} {k : String} {v : α},
      (k, v) ∈ m → (m.map fun p => p.1).Nodup → List.lookup k m = some v
  | [], k, v, h, _ => by cases h
  | (m0, w) :: t, k, v, h, hnd => by
    simp only [List.map_cons, List.nodup_cons] at hnd
    rcases List.mem_cons.mp h with heq | h
    · injection heq with h1 h2
      subst h1
      subst h2
      simp [List.lookup]
    · have hne : (k == m0) = false := by
        refine beq_eq_false_iff_ne.mpr ?_
        intro he
        apply hnd.1
        rw [← he]
        exact List.mem_map_of_mem (fun p => p.1) h
      simp only [List.lookup, hne]
      exact lookup_of_mem_nodup h hnd.2

theorem foldSet_prop {α : Type} (P : String × α → Prop) :
    ∀ (es : List (String × α)) (acc : List (String × α)),
      (∀ p ∈ acc, P p) → (∀ e ∈ es, P e) →
      ∀ p ∈ es.foldl (fun a p => jsMapSet a p.1 p.2) acc, P p
  | [], acc, hacc, _ => hacc
  | (k, v) :: t, acc, hacc, hes => by
    simp only [List.foldl_cons]
    refine foldSet_prop P t (jsMapSet acc k v) ?_
      (fun e he => hes e (List.mem_cons_of_mem _ he))
    intro p hp
    rcases jsMapSet_mem_sub hp with hp | rfl
    · exact hacc p hp
    · exact hes (k, v) (List.mem_cons_self _ _)

theorem parseSubhdSearchItems_as_foldSet (html : String) :
    parseSubhdSearchItems html =
      ((((jsSplit SUBHD_CARD_MARKER.data html.data).drop 1).filterMap
          subhdCardEntry).foldl (fun a p => jsMapSet a p.1 p.2) []).map
        (fun p => p.2) := by
  have hfold : ∀ (cards : List (List Char)) (acc : List (String × SubhdSearchItem)),
      cards.foldl
        (fun deduped card =>
          match extractSubhdSid card with
          | none => deduped
          | some sidChars =>
            jsMapSet deduped (⟨sidChars⟩ : String)
              (buildSubhdSearchItem card (⟨sidChars⟩ : String)))
        acc =
      (cards.filterMap subhdCardEntry).foldl (fun a p => jsMapSet a p.1 p.2) acc := by
    intro cards
    induction cards with
    | nil => intro acc; rfl
    | cons card rest ih =>
      intro acc
      simp only [List.foldl_cons, List.filterMap_cons]
      cases hs : extractSubhdSid card with
      | none =>
        simp only [subhdCardEntry, hs, Option.map_none']
        exact ih acc
      | some sidChars =>
        simp only [subhdCardEntry, hs, Option.map_some']
        rw [List.foldl_cons]
        exact ih _
  simp only [parseSubhdSearchItems]
  rw [hfold]

theorem buildSubhdSearchItem_sid (card : List Char) (sid : String) :
    (buildSubhdSearchItem card sid).sid = sid := rfl

theorem subhdCardEntry_sid {card : List Char} {e : String × SubhdSearchItem}
    (h : subhdCardEntry card = some e) : e.2.sid = e.1 := by
  unfold subhdCardEntry at h
  cases hs : extractSubhdSid card with
  | none => rw [hs] at h; cases h
  | some sc =>
    rw [hs, Option.map_some'] at h
    injection h with h
    rw [← h]
    rfl

/-- C4 (amended): search-results extraction returns at most one candidate
per identifier; the output position of an identifier follows the first
result container carrying it, but the returned candidate's fields are the
ones extracted from the last such container in document order (the
deduplication map's `set` overwrites the stored value in place). -/
theorem parse_search_dedup_last_write (html : String) :
    ((parseSubhdSearchItems html).map fun i => i.sid).Nodup ∧
    ((parseSubhdSearchItems html).map fun i => i.sid) =
      dedupKeepFirst
        ((((jsSplit SUBHD_CARD_MARKER.data html.data).drop 1).filterMap
          subhdCardEntry).map fun e => e.1) ∧
    ∀ it ∈ parseSubhdSearchItems html,
      ((((jsSplit SUBHD_CARD_MARKER.data html.data).drop 1).filterMap
          subhdCardEntry).reverse.find? fun e => e.1 == it.sid) =
        some (it.sid, it) := by
  have hparse := parseSubhdSearchItems_as_foldSet html
  have hinv : ∀ p ∈ (((jsSplit SUBHD_CARD_MARKER.data html.data).drop 1).filterMap
      subhdCardEntry).foldl (fun a p => jsMapSet a p.1 p.2) [],
      p.2.sid = p.1 := by
    refine foldSet_prop _ _ [] (by intro p hp; cases hp) ?_
    intro e he
    obtain ⟨card, _, hc⟩ := List.mem_filterMap.mp he
    exact subhdCardEntry_sid hc
  have hkeys := foldSet_keys
    (((jsSplit SUBHD_CARD_MARKER.data html.data).drop 1).filterMap subhdCardEntry) []
  simp only [List.map_nil, List.nil_append] at hkeys
  have hsids : ((parseSubhdSearchItems html).map fun i => i.sid) =
      ((((jsSplit SUBHD_CARD_MARKER.data html.data).drop 1).filterMap
        subhdCardEntry).foldl (fun a p => jsMapSet a p.1 p.2) []).map
        (fun p => p.1) := by
    rw [hparse, List.map_map]
    exact List.map_congr_left fun p hp => hinv p hp
  refine ⟨?_, ?_, ?_⟩
  · rw [hsids, hkeys]
    exact (dedupFirstAux_nodup _ []).1
  · rw [hsids, hkeys]
    rfl
  · intro it hit
    rw [hparse] at hit
    obtain ⟨p, hp, hpit⟩ := List.mem_map.mp hit
    have hsid : it.sid = p.1 := by rw [← hpit]; exact hinv p hp
    have hmem : (it.sid, it) ∈ (((jsSplit SUBHD_CARD_MARKER.data html.data).drop 1).filterMap
        subhdCardEntry).foldl (fun a p => jsMapSet a p.1 p.2) [] := by
      have : p = (it.sid, it) := by
        rw [hsid, ← hpit]
      rw [← this]
      exact hp
    have hnd : (((((jsSplit SUBHD_CARD_MARKER.data html.data).drop 1).filterMap
        subhdCardEntry).foldl (fun a p => jsMapSet a p.1 p.2) []).map
        fun p => p.1).Nodup := by
      rw [hkeys]
      exact (dedupFirstAux_nodup _ []).1
    have hlook := lookup_of_mem_nodup hmem hnd
    rw [foldSet_lookup] at hlook
    cases hf : ((((jsSplit SUBHD_CARD_MARKER.data html.data).drop 1).filterMap
        subhdCardEntry).reverse.find? fun e => e.1 == it.sid) with
    | none =>
      simp only [hf] at hlook
      simp [List.lookup] at hlook
    | some e =>
      simp only [hf] at hlook
      injection hlook with h2
      have h1 : e.1 = it.sid := by
        have := List.find?_some hf
        simpa using this
      obtain ⟨e1, e2⟩ := e
      simp only at h1 h2
      rw [h1, h2]

set_option maxRecDepth 20000 in
/-- C4 (counterexample): a document whose two result containers share the
sid `ab12` — the first container's download count extracts as 1, the
second as 247 — parses to a single candidate whose download count is 247,
the value from the last container, not from the first as the claim
states. -/
theorem parse_search_dedup_counterexample :
    (jsSplit SUBHD_CARD_MARKER.data subhdDupHtml.data).drop 1 =
      [subhdDupCardA.data, subhdDupCardB.data] ∧
    extractSubhdSid subhdDupCardA.data = some "ab12".data ∧
    extractSubhdSid subhdDupCardB.data = some "ab12".data ∧
    extractDownloadCount subhdDupCardA.data = 1 ∧
    extractDownloadCount subhdDupCardB.data = 247 ∧
    ((parseSubhdSearchItems subhdDupHtml).map fun i => (i.sid, i.downloads)) =
      [("ab12", 247)] ∧
    ((parseSubhdSearchItems subhdDupHtmlFirstOnly).map fun i => (i.sid, i.downloads)) =
      [("ab12", 1)] := by
  decide

/-! ## C8: download-gate payload classification -/

theorem stripLit_self_append (p l : List Char) : stripLit p (p ++ l) = some l := by
  induction p with
  | nil => rfl
  | cons c cs ih =>
    simp only [List.cons_append, stripLit, beq_self_eq_true, if_true]
    exact ih

theorem stripLit_eq_some {p l r : List Char} (h : stripLit p l = some r) :
    l = p ++ r := by
  induction p generalizing l with
  | nil =>
    have h2 : l = r := by simpa [stripLit] using h
    simp [h2]
  | cons c cs ih =>
    match l with
    | [] => exact absurd h (by simp [stripLit])
    | d :: ds =>
      simp only [stripLit] at h
      by_cases hc : d == c
      · rw [if_pos hc] at h
        have := ih h
        rw [List.cons_append, ← this, beq_iff_eq.mp hc]
      · rw [if_neg hc] at h
        exact absurd h (by simp)

/-- The gate condition of `getDownloadPlan` is true whenever the payload
is not fully successful. -/
theorem rejectedPayload_cond (payload : SubhdDownloadApiPayload)
    (hrej : ¬(payload.success = some true ∧ payload.pass = some true)) :
    (!(payload.success == some true) || !(payload.pass == some true)) = true := by
  rw [Bool.or_eq_true, Bool.not_eq_true', Bool.not_eq_true',
    beq_eq_false_iff_ne, beq_eq_false_iff_ne]
  by_cases h1 : payload.success = some true
  · by_cases h2 : payload.pass = some true
    · exact absurd ⟨h1, h2⟩ hrej
    · exact Or.inr h2
  · exact Or.inl h1

/-- C8 (amended): a rejected second-stage payload makes the download-plan
operation raise the error built by `createSubhdDownloadApiError`, an
upstream-bad-response error; the message-text classification applies only
when the payload carries `success` exactly `false`: then a message
matching the verification/challenge phrases yields classification
anti-bot, an otherwise rate-limit-matching message yields classification
rate-limit, and a message matching neither yields classification
bad-response with the raw payload attached; when `success` is anything
other than `false`, the classification is bad-response with the raw
payload attached regardless of the message text. -/
theorem download_api_error_classification
    (U : UrlLib) (baseUrl : String) (o : SubhdGateOracles) (id sid u : String)
    (payload : SubhdDownloadApiPayload) (html : String)
    (hid : parseSubhdProviderId id = .ok sid)
    (hpage : o.downPage = .ok html)
    (hbenign : looksLikeAntiBotChallenge html = false)
    (hapi : o.api = .ok payload)
    (hrej : ¬(payload.success = some true ∧ payload.pass = some true)) :
    (getDownloadPlan U baseUrl o id).1 =
      .error (createSubhdDownloadApiError sid payload
        (baseUrl ++ "down/" ++ U.encodeComponent sid)) ∧
    (createSubhdDownloadApiError sid payload u).code = .E_UPSTREAM_BAD_RESPONSE ∧
    (payload.success = some false →
        subhdChallengeMsgTest (normalizeErrorMessage payload.msg) = true →
      (createSubhdDownloadApiError sid payload u).details.classification =
        some .antiBot) ∧
    (payload.success = some false →
        subhdChallengeMsgTest (normalizeErrorMessage payload.msg) = false →
        subhdRateMsgTest (normalizeErrorMessage payload.msg) = true →
      (createSubhdDownloadApiError sid payload u).details.classification =
        some .rateLimit) ∧
    (payload.success = some false →
        subhdChallengeMsgTest (normalizeErrorMessage payload.msg) = false →
        subhdRateMsgTest (normalizeErrorMessage payload.msg) = false →
      (createSubhdDownloadApiError sid payload u).details.classification =
        some .badResponse ∧
      (createSubhdDownloadApiError sid payload u).details.payload = some payload) ∧
    (payload.success ≠ some false →
      (createSubhdDownloadApiError sid payload u).details.classification =
        some .badResponse ∧
      (createSubhdDownloadApiError sid payload u).details.payload = some payload) := by
  have hcond := rejectedPayload_cond payload hrej
  refine ⟨?_, ?_, ?_, ?_, ?_, ?_⟩
  · simp only [getDownloadPlan, hid, hpage, hapi, hbenign, Bool.false_eq_true,
      if_false]
    cases hres : resolveSubhdDownloadUrl U baseUrl payload.url with
    | none => simp only [hres]
    | some su => simp only [hres, hcond, if_true]
  · by_cases h1 : (payload.success == some false &&
        subhdChallengeMsgTest (normalizeErrorMessage payload.msg)) = true
    · simp [createSubhdDownloadApiError, createSubhdChallengeError, h1]
    · by_cases h2 : (payload.success == some false &&
          subhdRateMsgTest (normalizeErrorMessage payload.msg)) = true
      · simp [createSubhdDownloadApiError, h1, h2]
      · simp [createSubhdDownloadApiError, h1, h2]
  · intro hs hc
    simp [createSubhdDownloadApiError, createSubhdChallengeError, hs, hc]
  · intro hs hc hr
    simp [createSubhdDownloadApiError, hs, hc, hr]
  · intro hs hc hr
    simp [createSubhdDownloadApiError, hs, hc, hr]
  · intro hns
    have hb : (payload.success == some false) = false := beq_eq_false_iff_ne.mpr hns
    simp [createSubhdDownloadApiError, hb]

/-- Witness: the classification theorem applied to a concrete rejected
payload run. -/
theorem download_api_error_classification_witness :
    (getDownloadPlan urlLibId "https://subhd.tv/" subhdBenignOracles "subhd:ab12").1 =
      .error (createSubhdDownloadApiError "ab12" subhdChallengeMsgPayload
        ("https://subhd.tv/" ++ "down/" ++ urlLibId.encodeComponent "ab12")) :=
  (download_api_error_classification urlLibId "https://subhd.tv/" subhdBenignOracles
    "subhd:ab12" "ab12" "x" subhdChallengeMsgPayload "<html><body>ok</body></html>"
    (by decide) rfl (by decide) rfl (by decide)).1

set_option maxRecDepth 20000 in
/-- C8 (counterexample): a rejected payload whose message `验证码`
matches the verification-phrase test but whose `success` field is `true`
rather than `false`: the full download-plan run raises the generic
bad-response error carrying the raw payload, not the anti-bot error the
claim requires for every non-success payload with such a message. -/
theorem download_api_misclassified_challenge_counterexample :
    subhdChallengeMsgTest
      (normalizeErrorMessage subhdChallengeMsgPayload.msg) = true ∧
    (!(subhdChallengeMsgPayload.success == some true) ||
      !(subhdChallengeMsgPayload.pass == some true)) = true ∧
    (getDownloadPlan urlLibId "https://subhd.tv/" subhdBenignOracles "subhd:ab12").1 =
      .error
        { code := .E_UPSTREAM_BAD_RESPONSE
        , message := "SubHD download gate returned an unexpected response"
        , details :=
          { provider := some "subhd", sid := some "ab12"
          , url := some "https://subhd.tv/down/ab12"
          , classification := some .badResponse
          , payload := some subhdChallengeMsgPayload } } := by
  decide

/-! ## C9: provider-id validation -/

/-- C9: after trimming, an id of the shape `subhd:` followed by an
alphanumeric sid is accepted with the sid as the catalog-native
identifier; a bare alphanumeric id is accepted as-is; every other id
raises the resource-not-found error carrying provider `subhd` and the
offending id; and on such an id the download-plan operation returns that
error having made zero upstream calls. -/
theorem provider_id_validation_shapes (id : String) :
    (∀ sid : String, jsTrim id = toSubhdProviderId sid →
      isAlnumString sid = true → parseSubhdProviderId id = .ok sid) ∧
    (isAlnumString (jsTrim id) = true →
      parseSubhdProviderId id = .ok (jsTrim id)) ∧
    (stripLit subhdIdHead.data (jsTrim id).data = none →
      isAlnumString (jsTrim id) = false →
      parseSubhdProviderId id =
        .error { code := .E_NOT_FOUND_RESOURCE
               , message := "SubHD subtitle not found: " ++ id
               , details := { provider := some "subhd", id := some id } }) ∧
    (∀ sidChars : List Char,
      stripLit subhdIdHead.data (jsTrim id).data = some sidChars →
      isAlnumString ⟨sidChars⟩ = false → isAlnumString (jsTrim id) = false →
      parseSubhdProviderId id =
        .error { code := .E_NOT_FOUND_RESOURCE
               , message := "SubHD subtitle not found: " ++ id
               , details := { provider := some "subhd", id := some id } }) ∧
    (∀ (U : UrlLib) (baseUrl : String) (o : SubhdGateOracles) (e : CliAppError),
      parseSubhdProviderId id = .error e →
      getDownloadPlan U baseUrl o id = (.error e, 0)) := by
  refine ⟨?_, ?_, ?_, ?_, ?_⟩
  · intro sid hpre halnum
    have hdata : (jsTrim id).data = subhdIdHead.data ++ sid.data := by
      rw [hpre]; exact (String.data_append _ _)
    have hst : stripLit subhdIdHead.data (jsTrim id).data = some sid.data := by
      rw [hdata]; exact stripLit_self_append _ _
    simp only [parseSubhdProviderId, hst]
    have : isAlnumString (⟨sid.data⟩ : String) = true := halnum
    simp only [this, if_true]
  · intro halnum
    cases hst : stripLit subhdIdHead.data (jsTrim id).data with
    | none =>
      simp only [parseSubhdProviderId, hst, halnum, if_true]
    | some s =>
      exfalso
      have heq := stripLit_eq_some hst
      have hall : ((jsTrim id).data.all isAsciiAlnum) = true := by
        simp only [isAlnumString, Bool.and_eq_true] at halnum
        exact halnum.2
      rw [heq] at hall
      simp only [subhdIdHead, List.all_append, Bool.and_eq_true] at hall
      have hcolon := hall.1
      exact absurd hcolon (by decide)
  · intro hst hfalse
    simp [parseSubhdProviderId, hst, hfalse]
  · intro sidChars hst hf1 hf2
    simp [parseSubhdProviderId, hst, hf1, hf2]
  · intro U baseUrl o e h
    simp only [getDownloadPlan, h]

/-- Witness: the validation theorem applied to concrete ids of each
shape, and a malformed id reaching the download-plan operation. -/
theorem provider_id_validation_shapes_witness :
    parseSubhdProviderId " subhd:Ab12 " = .ok "Ab12" ∧
    parseSubhdProviderId "Ab12" = .ok "Ab12" ∧
    parseSubhdProviderId "subhd:!x" =
      .error { code := .E_NOT_FOUND_RESOURCE
             , message := "SubHD subtitle not found: " ++ "subhd:!x"
             , details := { provider := some "subhd", id := some "subhd:!x" } } ∧
    getDownloadPlan urlLibId "https://subhd.tv/" subhdBenignOracles "subhd:!x" =
      (.error { code := .E_NOT_FOUND_RESOURCE
              , message := "SubHD subtitle not found: " ++ "subhd:!x"
              , details := { provider := some "subhd", id := some "subhd:!x" } }, 0) := by
  refine ⟨?_, ?_, ?_, ?_⟩
  · exact (provider_id_validation_shapes " subhd:Ab12 ").1 "Ab12" (by decide) (by decide)
  · exact (provider_id_validation_shapes "Ab12").2.1 (by decide)
  · exact (provider_id_validation_shapes "subhd:!x").2.2.2.1 "!x".data
      (by decide) (by decide) (by decide)
  · exact (provider_id_validation_shapes "subhd:!x").2.2.2.2 urlLibId "https://subhd.tv/"
      subhdBenignOracles _ ((provider_id_validation_shapes "subhd:!x").2.2.2.1 "!x".data
        (by decide) (by decide) (by decide))

/-- Witness: ranking determinism applied to a concrete two-candidate
list and its transposition. -/
theorem rank_deterministic_under_permutation_witness :
    (rankSubtitleCandidates floatModel0 request0 [cand2, cand1] 5).map
        (fun r => (r.cand.id, r.score, r.rank)) =
      (rankSubtitleCandidates floatModel0 request0 [cand1, cand2] 5).map
        (fun r => (r.cand.id, r.score, r.rank)) :=
  rank_deterministic_under_permutation floatModel0 request0 [cand1, cand2]
    [cand2, cand1] 5 (List.Perm.swap cand1 cand2 [])

/-- Witness: fingerprint invariance applied to a concrete request and a
transposed language list. -/
theorem fingerprint_language_order_invariant_witness :
    (normalizeSubtitleRequest
        { requestInput0 with languages := some ["zh-CN", "en"] }).fingerprint =
      (normalizeSubtitleRequest requestInput0).fingerprint ∧
    (normalizeSubtitleRequest requestInput0).fingerprint =
      joinSep "|"
        [(normalizeSubtitleRequest requestInput0).normalizedQuery,
         optIntStr requestInput0.year, optIntStr requestInput0.season,
         optIntStr requestInput0.episode,
         joinSep ","
           (jsSort localeCompareQ
             (normalizeSubtitleRequest requestInput0).languagePreferences)] :=
  fingerprint_language_order_invariant requestInput0 ["zh-CN", "en"]
    (List.Perm.swap "en" "zh-CN" [])

end Subchef
